import Mathlib

/-!
Verification development for the graph-structure-visualizer core:
the typed attribute system (`api/api/types.py`), the graph store
(`api/api/models/{node,edge,graph}.py`), the filter and search services
(`core/services/{filter,search}_service.py`) and the workspace snapshot
history (`core/graph_platform/workspace.py`).

Python dictionaries are modelled as insertion-ordered association lists,
Python exceptions as `Except` values, and Python object identity (where a
claim depends on it) as an explicit `addr : Nat` field on node objects.
-/

set_option maxHeartbeats 1000000

namespace GV

/-! ## Python dict model: insertion-ordered association lists -/

namespace PyDict

/-- `d[k]` lookup: the value of the first (and, under nodup keys, the only)
pair whose key is `k`. -/
def get : List (String × α) → String → Option α
  | [], _ => none
  | p :: d, k => if p.1 = k then some p.2 else get d k

/-- `k in d`. -/
def contains (d : List (String × α)) (k : String) : Bool :=
  (get d k).isSome

/-- Overwrite the value of every pair whose key is `k` (Python dicts keep the
original insertion position on overwrite; with nodup keys there is exactly
one such pair). -/
def update : List (String × α) → String → α → List (String × α)
  | [], _, _ => []
  | p :: d, k, v => (if p.1 = k then (k, v) else p) :: update d k v

/-- `d[k] = v`: update in place when the key exists, append at the end
otherwise. -/
def insert (d : List (String × α)) (k : String) (v : α) : List (String × α) :=
  if contains d k then update d k v else d ++ [(k, v)]

/-- `del d[k]` (removing every pair with that key). -/
def erase : List (String × α) → String → List (String × α)
  | [], _ => []
  | p :: d, k => if p.1 = k then erase d k else p :: erase d k

/-- `list(d.keys())`. -/
def keys (d : List (String × α)) : List String :=
  d.map (·.1)

/-- `list(d.values())`. -/
def values (d : List (String × α)) : List α :=
  d.map (·.2)

theorem get_append (d₁ d₂ : List (String × α)) (k : String) :
    get (d₁ ++ d₂) k = ((get d₁ k).or (get d₂ k)) := by
  induction d₁ with
  | nil => simp [get]
  | cons p rest ih =>
    by_cases hp : p.1 = k <;> simp [get, hp, ih]

theorem get_update_self (d : List (String × α)) (k : String) (v : α)
    (h : contains d k = true) : get (update d k v) k = some v := by
  induction d with
  | nil => simp [contains, get] at h
  | cons p rest ih =>
    by_cases hp : p.1 = k
    · simp [update, get, hp]
    · simp only [contains, get, if_neg hp] at h
      simp [update, get, hp, ih h, contains]

theorem get_update_ne (d : List (String × α)) (k k' : String) (v : α)
    (hne : k ≠ k') : get (update d k v) k' = get d k' := by
  induction d with
  | nil => rfl
  | cons p rest ih =>
    by_cases hp : p.1 = k
    · have hpk' : p.1 ≠ k' := hp ▸ hne
      simp only [update, if_pos hp, get, ih, if_neg hne, if_neg hpk']
    · simp only [update, if_neg hp, get, ih]

theorem get_insert_self (d : List (String × α)) (k : String) (v : α) :
    get (insert d k v) k = some v := by
  unfold insert
  by_cases h : contains d k
  · simp [h, get_update_self d k v h]
  · have hg : get d k = none := by
      unfold contains at h
      cases hg : get d k with
      | none => rfl
      | some w => rw [hg] at h; simp at h
    simp [h, get_append, hg, get]

theorem get_insert_ne (d : List (String × α)) (k k' : String) (v : α)
    (hne : k ≠ k') : get (insert d k v) k' = get d k' := by
  unfold insert
  by_cases h : contains d k
  · simp [h, get_update_ne d k k' v hne]
  · simp only [h, if_false, Bool.false_eq_true, get_append]
    have hone : get [(k, v)] k' = none := by simp [get, hne]
    rw [hone]
    cases get d k' <;> rfl

theorem get_erase_self (d : List (String × α)) (k : String) :
    get (erase d k) k = none := by
  induction d with
  | nil => rfl
  | cons p rest ih =>
    by_cases hp : p.1 = k <;> simp [erase, get, hp, ih]

theorem get_erase_ne (d : List (String × α)) (k k' : String) (hne : k ≠ k') :
    get (erase d k) k' = get d k' := by
  induction d with
  | nil => rfl
  | cons p rest ih =>
    by_cases hp : p.1 = k
    · have hpk' : p.1 ≠ k' := hp ▸ hne
      simp only [erase, if_pos hp, get, if_neg hpk', ih]
    · simp only [erase, if_neg hp, get, ih]

theorem contains_iff_mem_keys (d : List (String × α)) (k : String) :
    contains d k = true ↔ k ∈ keys d := by
  induction d with
  | nil => simp [contains, get, keys]
  | cons p rest ih =>
    by_cases hp : p.1 = k
    · simp [contains, get, keys, hp]
    · simp only [contains, get, if_neg hp, keys, List.map_cons, List.mem_cons]
      rw [contains] at ih
      rw [ih, keys]
      constructor
      · exact Or.inr
      · rintro (h | h)
        · exact absurd h.symm hp
        · exact h

theorem get_mem (d : List (String × α)) (k : String) (v : α)
    (h : get d k = some v) : (k, v) ∈ d := by
  induction d with
  | nil => simp [get] at h
  | cons p rest ih =>
    by_cases hp : p.1 = k
    · simp only [get, if_pos hp, Option.some.injEq] at h
      have hpv : p = (k, v) := by
        cases p with
        | mk a b => simp_all
      rw [← hpv]
      exact List.mem_cons_self _ _
    · simp only [get, if_neg hp] at h
      exact List.mem_cons_of_mem _ (ih h)

theorem mem_get_of_nodup (d : List (String × α)) (k : String) (v : α)
    (hnd : (keys d).Nodup) (hmem : (k, v) ∈ d) : get d k = some v := by
  induction d with
  | nil => simp at hmem
  | cons p rest ih =>
    simp only [keys, List.map_cons, List.nodup_cons] at hnd
    rcases List.mem_cons.mp hmem with h | h
    · simp [get, ← h]
    · have hk : k ∈ keys rest := List.mem_map_of_mem (·.1) h
      have hp : p.1 ≠ k := fun hc => hnd.1 (hc ▸ hk)
      simp only [get, if_neg hp]
      exact ih hnd.2 h

theorem keys_update (d : List (String × α)) (k : String) (v : α) :
    keys (update d k v) = keys d := by
  induction d with
  | nil => rfl
  | cons p rest ih =>
    by_cases hp : p.1 = k <;> simp [update, keys, hp] <;>
      simpa [keys] using ih

theorem keys_insert_of_contains (d : List (String × α)) (k : String) (v : α)
    (h : contains d k = true) : keys (insert d k v) = keys d := by
  simp [insert, h, keys_update]

theorem keys_insert_of_not_contains (d : List (String × α)) (k : String) (v : α)
    (h : contains d k = false) : keys (insert d k v) = keys d ++ [k] := by
  simp [insert, h, keys]

theorem keys_erase (d : List (String × α)) (k : String) :
    keys (erase d k) = (keys d).filter (fun x => x ≠ k) := by
  induction d with
  | nil => rfl
  | cons p rest ih =>
    by_cases hp : p.1 = k <;> simp [erase, keys, List.filter_cons, hp] <;>
      simpa [keys] using ih

theorem nodup_keys_insert (d : List (String × α)) (k : String) (v : α)
    (h : (keys d).Nodup) : (keys (insert d k v)).Nodup := by
  by_cases hc : contains d k
  · rwa [keys_insert_of_contains _ _ _ hc]
  · rw [keys_insert_of_not_contains _ _ _ (by simpa using hc)]
    rw [List.nodup_append]
    refine ⟨h, List.nodup_singleton k, ?_⟩
    intro x hx hk
    simp only [List.mem_singleton] at hk
    subst hk
    exact absurd ((contains_iff_mem_keys d x).mpr hx) (by simpa using hc)

theorem nodup_keys_erase (d : List (String × α)) (k : String)
    (h : (keys d).Nodup) : (keys (erase d k)).Nodup := by
  rw [keys_erase]
  exact h.filter _

theorem mem_of_get_eq_some (d : List (String × α)) (k : String) (v : α)
    (h : get d k = some v) : v ∈ values d := by
  have := get_mem d k v h
  exact List.mem_map_of_mem (·.2) this

theorem mem_insert_of_not_contains (d : List (String × α)) (k : String) (v : α)
    (h : contains d k = false) (p : String × α) :
    p ∈ insert d k v ↔ p ∈ d ∨ p = (k, v) := by
  simp [insert, h]

theorem update_of_not_contains (d : List (String × α)) (k : String) (v : α)
    (h : contains d k = false) : update d k v = d := by
  induction d with
  | nil => rfl
  | cons x xs ih =>
    by_cases hx : x.1 = k
    · simp [contains, get, hx] at h
    · simp only [update, if_neg hx, List.cons.injEq, true_and]
      apply ih
      simpa [contains, get, hx] using h

theorem mem_update_iff (d : List (String × α)) (k : String) (v : α)
    (h : contains d k = true) (p : String × α) :
    p ∈ update d k v ↔ (p ∈ d ∧ p.1 ≠ k) ∨ p = (k, v) := by
  induction d with
  | nil => simp [contains, get] at h
  | cons hd rest ih =>
    by_cases hp : hd.1 = k
    · simp only [update, if_pos hp, List.mem_cons]
      constructor
      · rintro (h1 | h1)
        · exact Or.inr h1
        · by_cases hc : contains rest k
          · rcases (ih hc).mp h1 with ⟨h2, h3⟩ | h2
            · exact Or.inl ⟨Or.inr h2, h3⟩
            · exact Or.inr h2
          · rw [update_of_not_contains rest k v (by simpa using hc)] at h1
            have hpk : p.1 ≠ k := by
              intro hcontr
              have : contains rest k = true := by
                rw [contains_iff_mem_keys]
                exact hcontr ▸ List.mem_map_of_mem (·.1) h1
              exact hc this
            exact Or.inl ⟨Or.inr h1, hpk⟩
      · rintro (⟨h1 | h1, h2⟩ | h1)
        · exact absurd (h1 ▸ hp) h2
        · right
          by_cases hc : contains rest k
          · exact (ih hc).mpr (Or.inl ⟨h1, h2⟩)
          · rw [update_of_not_contains rest k v (by simpa using hc)]
            exact h1
        · exact Or.inl h1
    · simp only [update, if_neg hp, List.mem_cons]
      have hrest : contains rest k = true := by
        simp only [contains, get, if_neg hp] at h
        exact h
      rw [ih hrest]
      constructor
      · rintro (h1 | h1)
        · exact Or.inl ⟨Or.inl h1, h1 ▸ hp⟩
        · rcases h1 with ⟨h2, h3⟩ | h2
          · exact Or.inl ⟨Or.inr h2, h3⟩
          · exact Or.inr h2
      · rintro (⟨h1 | h1, h2⟩ | h1)
        · exact Or.inl h1
        · exact Or.inr (Or.inl ⟨h1, h2⟩)
        · exact Or.inr (Or.inr h1)

theorem mem_insert_of_contains (d : List (String × α)) (k : String) (v : α)
    (h : contains d k = true) (p : String × α) :
    p ∈ insert d k v ↔ (p ∈ d ∧ p.1 ≠ k) ∨ p = (k, v) := by
  rw [insert, if_pos h]
  exact mem_update_iff d k v h p

theorem mem_erase_iff (d : List (String × α)) (k : String) (p : String × α) :
    p ∈ erase d k ↔ p ∈ d ∧ p.1 ≠ k := by
  induction d with
  | nil => simp [erase]
  | cons hd rest ih =>
    by_cases hp : hd.1 = k
    · simp only [erase, if_pos hp, List.mem_cons, ih]
      constructor
      · rintro ⟨h1, h2⟩
        exact ⟨Or.inr h1, h2⟩
      · rintro ⟨h1 | h1, h2⟩
        · exact absurd (h1 ▸ hp) h2
        · exact ⟨h1, h2⟩
    · simp only [erase, if_neg hp, List.mem_cons, ih]
      constructor
      · rintro (h1 | ⟨h1, h2⟩)
        · exact ⟨Or.inl h1, h1 ▸ hp⟩
        · exact ⟨Or.inr h1, h2⟩
      · rintro ⟨h1 | h1, h2⟩
        · exact Or.inl h1
        · exact Or.inr ⟨h1, h2⟩

theorem contains_insert_same (d : List (String × α)) (k : String) (v : α) :
    contains (insert d k v) k = true := by
  simp [contains, get_insert_self]

theorem contains_insert_ne (d : List (String × α)) (k k' : String) (v : α)
    (hne : k ≠ k') : contains (insert d k v) k' = contains d k' := by
  simp [contains, get_insert_ne d k k' v hne]

end PyDict

/-! ## Python string primitives used by the sources -/

/-- `str.isdigit()` (restricted to ASCII digits). -/
def pyIsdigit (s : String) : Bool :=
  !s.toList.isEmpty && s.toList.all Char.isDigit

/-- Characters stripped by `str.strip()` / skipped by the regex class `\s`. -/
def isPySpace (c : Char) : Bool :=
  c = ' ' || c = '\t' || c = '\n' || c = '\r' || c = '\x0b' || c = '\x0c'

/-- Word characters of the regex class `\w` (restricted to ASCII). -/
def isWordChar (c : Char) : Bool :=
  c.isAlphanum || c = '_'

def stripList (cs : List Char) : List Char :=
  ((cs.dropWhile isPySpace).reverse.dropWhile isPySpace).reverse

/-- `str.strip()` with no argument. -/
def pyStrip (s : String) : String :=
  String.mk (stripList s.toList)

/-- `str.lower()` (per-character, kernel-computable). -/
def pyToLower (s : String) : String :=
  String.mk (s.toList.map Char.toLower)

/-- `needle in hay` on Python strings: contiguous-substring containment. -/
def pyInStr (needle hay : String) : Bool :=
  decide (List.IsInfix needle.toList hay.toList)

/-- Value of a list of ASCII decimal digits. -/
def digitsToNat (cs : List Char) : Nat :=
  cs.foldl (fun a c => a * 10 + (c.toNat - 48)) 0

/-- Optional leading sign; returns (is-negative, rest). -/
def parseSign : List Char → Bool × List Char
  | '-' :: r => (true, r)
  | '+' :: r => (false, r)
  | cs => (false, cs)

/-- `int(s)` on a string: strip whitespace, optional sign, then a nonempty run
of decimal digits (numeric-literal underscores are not modelled). -/
def pyIntParse (s : String) : Option Int :=
  let cs := stripList s.toList
  let (neg, ds) := parseSign cs
  if !ds.isEmpty && ds.all Char.isDigit then
    some (if neg then -(digitsToNat ds : Int) else (digitsToNat ds : Int))
  else
    none

/-- Finish a float literal after the mantissa: optional exponent part.
The payload of a Python float is abstracted as an exact rational. -/
def floatFinishExp (neg : Bool) (mant : Rat) : List Char → Option Rat
  | [] => some (if neg then -mant else mant)
  | e :: r =>
    if e = 'e' || e = 'E' then
      let (eneg, r1) := parseSign r
      let ed := r1.takeWhile Char.isDigit
      let r2 := r1.dropWhile Char.isDigit
      if ed.isEmpty || !r2.isEmpty then none
      else
        let ex : Rat := (10 : Rat) ^ digitsToNat ed
        let m := if eneg then mant / ex else mant * ex
        some (if neg then -m else m)
    else none

/-- `float(s)` on a string: strip whitespace, optional sign, decimal mantissa
with optional fraction, optional exponent.  The special literals
`inf`/`infinity`/`nan` and numeric-literal underscores are not modelled; the
payload is kept exact (a rational), which is faithful for every comparison
the claims exercise. -/
def pyFloatParse (s : String) : Option Rat :=
  let cs := stripList s.toList
  let (neg, cs1) := parseSign cs
  let ip := cs1.takeWhile Char.isDigit
  let cs2 := cs1.dropWhile Char.isDigit
  match cs2 with
  | '.' :: cs3 =>
    let fp := cs3.takeWhile Char.isDigit
    let cs4 := cs3.dropWhile Char.isDigit
    if ip.isEmpty && fp.isEmpty then none
    else
      floatFinishExp neg
        ((digitsToNat ip : Rat) + (digitsToNat fp : Rat) / (10 : Rat) ^ fp.length) cs4
  | _ =>
    if ip.isEmpty then none
    else floatFinishExp neg (digitsToNat ip : Rat) cs2

/-! ## Dates (`datetime.date` / `datetime.datetime`) -/

structure PyDate where
  year : Nat
  month : Nat
  day : Nat
deriving DecidableEq, Repr

structure PyDateTime where
  date : PyDate
  hour : Nat
  minute : Nat
  second : Nat
deriving DecidableEq, Repr

def isLeapYear (y : Nat) : Bool :=
  (y % 4 = 0 && y % 100 ≠ 0) || y % 400 = 0

def daysInMonth (y m : Nat) : Nat :=
  if m = 2 then (if isLeapYear y then 29 else 28)
  else if m = 4 || m = 6 || m = 9 || m = 11 then 30
  else 31

/-- Parse and validate `YYYY-MM-DD`. -/
def parseDatePart (cs : List Char) : Option PyDate :=
  match cs with
  | [y1, y2, y3, y4, '-', m1, m2, '-', d1, d2] =>
    if [y1, y2, y3, y4, m1, m2, d1, d2].all Char.isDigit then
      let y := digitsToNat [y1, y2, y3, y4]
      let m := digitsToNat [m1, m2]
      let d := digitsToNat [d1, d2]
      if 1 ≤ y && 1 ≤ m && m ≤ 12 && 1 ≤ d && d ≤ daysInMonth y m then
        some ⟨y, m, d⟩
      else none
    else none
  | _ => none

/-- Parse and validate `HH:MM` or `HH:MM:SS`. -/
def parseTimePart (cs : List Char) : Option (Nat × Nat × Nat) :=
  match cs with
  | [h1, h2, ':', n1, n2] =>
    if [h1, h2, n1, n2].all Char.isDigit then
      let h := digitsToNat [h1, h2]
      let n := digitsToNat [n1, n2]
      if h ≤ 23 && n ≤ 59 then some (h, n, 0) else none
    else none
  | [h1, h2, ':', n1, n2, ':', s1, s2] =>
    if [h1, h2, n1, n2, s1, s2].all Char.isDigit then
      let h := digitsToNat [h1, h2]
      let n := digitsToNat [n1, n2]
      let s := digitsToNat [s1, s2]
      if h ≤ 23 && n ≤ 59 && s ≤ 59 then some (h, n, s) else none
    else none
  | _ => none

/-- `datetime.fromisoformat(s)`: `YYYY-MM-DD`, optionally followed by a
single separator character and `HH:MM[:SS]` (fractional seconds and UTC
offsets are not modelled). -/
def pyFromIsoformat (s : String) : Option PyDateTime :=
  let cs := s.toList
  match cs.drop 10 with
  | [] => (parseDatePart cs).map (fun d => ⟨d, 0, 0, 0⟩)
  | _sep :: tpart => do
    let d ← parseDatePart (cs.take 10)
    let (h, n, sec) ← parseTimePart tpart
    pure ⟨d, h, n, sec⟩

/-! ## Values (`api/api/types.py`) -/

/-- `ValueType`. -/
inductive ValueType
  | INT
  | STR
  | FLOAT
  | DATE
  | BOOL
deriving DecidableEq, Repr

/-- A Python scalar value as handled by the attribute system.  `none` is
Python's `None`; the float payload is abstracted as an exact rational. -/
inductive PyVal where
  | bool (b : Bool)
  | int (n : Int)
  | float (q : Rat)
  | date (d : PyDate)
  | datetime (dt : PyDateTime)
  | str (s : String)
  | none
deriving DecidableEq, Repr

namespace TypeValidator

/-- `TypeValidator.detect_type`: `isinstance` checks bool → int → float →
date/datetime, then for strings: `isdigit` → `float(value)` →
`datetime.fromisoformat(value)` → `STR`; any other value falls to `STR`. -/
def detect_type : PyVal → ValueType
  | .bool _ => .BOOL
  | .int _ => .INT
  | .float _ => .FLOAT
  | .date _ => .DATE
  | .datetime _ => .DATE
  | .str s =>
    if pyIsdigit s then .INT
    else if (pyFloatParse s).isSome then .FLOAT
    else if (pyFromIsoformat s).isSome then .DATE
    else .STR
  | .none => .STR

end TypeValidator

/-! Python exceptions relevant to the modelled code paths. -/
inductive PyErr
  | valueError
  | typeError
  | attributeError
  | filterParseError
  | filterTypeError
  | searchParseError
deriving DecidableEq, Repr

instance {e a : Type} [DecidableEq e] [DecidableEq a] : DecidableEq (Except e a) := fun x y =>
  match x, y with
  | .ok u, .ok v =>
    if h : u = v then isTrue (by rw [h])
    else isFalse (by intro hc; cases hc; exact h rfl)
  | .error u, .error v =>
    if h : u = v then isTrue (by rw [h])
    else isFalse (by intro hc; cases hc; exact h rfl)
  | .ok _, .error _ => isFalse (by intro hc; cases hc)
  | .error _, .ok _ => isFalse (by intro hc; cases hc)

/-- `int(q)` on a float: truncation toward zero. -/
def ratTrunc (q : Rat) : Int :=
  Int.tdiv q.num (q.den : Int)

/-- `int(value)`. -/
def pyIntFn : PyVal → Except PyErr Int
  | .str s =>
    match pyIntParse s with
    | some n => .ok n
    | Option.none => .error .valueError
  | .int n => .ok n
  | .float q => .ok (ratTrunc q)
  | .bool b => .ok (if b then 1 else 0)
  | _ => .error .typeError

/-- `float(value)`. -/
def pyFloatFn : PyVal → Except PyErr Rat
  | .str s =>
    match pyFloatParse s with
    | some q => .ok q
    | Option.none => .error .valueError
  | .int n => .ok (n : Rat)
  | .float q => .ok q
  | .bool b => .ok (if b then 1 else 0)
  | _ => .error .typeError

/-- Rendering used by `str(value)` for the value shapes in play.  The float
rendering is approximate (Python's shortest-repr is not reproduced); no claim
evaluates it on a float. -/
def pad2 (n : Nat) : String :=
  if n < 10 then "0" ++ toString n else toString n

def pad4 (n : Nat) : String :=
  if n < 10 then "000" ++ toString n
  else if n < 100 then "00" ++ toString n
  else if n < 1000 then "0" ++ toString n
  else toString n

def dateRender (d : PyDate) : String :=
  pad4 d.year ++ "-" ++ pad2 d.month ++ "-" ++ pad2 d.day

def datetimeRender (dt : PyDateTime) : String :=
  dateRender dt.date ++ " " ++ pad2 dt.hour ++ ":" ++ pad2 dt.minute ++ ":" ++ pad2 dt.second

def ratRender (q : Rat) : String :=
  if q.den = 1 then toString q.num ++ ".0"
  else toString q.num ++ "/" ++ toString q.den

def pyStrRender : PyVal → String
  | .str s => s
  | .int n => toString n
  | .bool b => if b then "True" else "False"
  | .float q => ratRender q
  | .date d => dateRender d
  | .datetime dt => datetimeRender dt
  | .none => "None"

namespace TypeValidator

/-- `TypeValidator.convert_to_type`. -/
def convert_to_type (v : PyVal) : ValueType → Except PyErr PyVal
  | .INT => (pyIntFn v).map PyVal.int
  | .FLOAT => (pyFloatFn v).map PyVal.float
  | .DATE =>
    match v with
    | .str s =>
      match pyFromIsoformat s with
      | some dt => .ok (.date dt.date)
      | Option.none => .error .valueError
    | .datetime dt => .ok (.date dt.date)
    | _ => .ok v
  | .BOOL =>
    match v with
    | .str s => .ok (.bool (pyToLower s = "true" || pyToLower s = "1" || pyToLower s = "yes"))
    | .int n => .ok (.bool (n ≠ 0))
    | .float q => .ok (.bool (q ≠ 0))
    | .bool b => .ok (.bool b)
    | .date _ => .ok (.bool true)
    | .datetime _ => .ok (.bool true)
    | .none => .ok (.bool false)
  | .STR => .ok (.str (pyStrRender v))

/-- `convert_to_type(value, attr_type)` where `attr_type` may be Python
`None` (in which case none of the `==` branch tests fire and the final `STR`
branch runs). -/
def convert_to_opt_type (v : PyVal) : Option ValueType → Except PyErr PyVal
  | some t => convert_to_type v t
  | Option.none => .ok (.str (pyStrRender v))

/-- `TypeValidator.validate_and_convert`: re-raises conversion failures as a
`ValueError`. -/
def validate_and_convert (v : PyVal) (t : ValueType) : Except PyErr PyVal :=
  match convert_to_type v t with
  | .ok w => .ok w
  | .error _ => .error .valueError

end TypeValidator

/-! ## Python rich comparison on the value shapes in play -/

/-- The numeric tower: bool/int/float are mutually comparable, exactly
(Python's int-float comparisons are exact). -/
def numVal : PyVal → Option Rat
  | .bool b => some (if b then 1 else 0)
  | .int n => some (n : Rat)
  | .float q => some q
  | _ => Option.none

/-- `a == b`: never raises; mixed incomparable kinds are just unequal, and a
`date` is never equal to a `datetime`. -/
def pyEq (a b : PyVal) : Bool :=
  match numVal a, numVal b with
  | some x, some y => x = y
  | _, _ =>
    match a, b with
    | .str s, .str t => s = t
    | .date d, .date e => d = e
    | .datetime d, .datetime e => d = e
    | .none, .none => true
    | _, _ => false

def dateLt (a b : PyDate) : Bool :=
  a.year < b.year ∨ (a.year = b.year ∧
    (a.month < b.month ∨ (a.month = b.month ∧ a.day < b.day)))

def dateLe (a b : PyDate) : Bool :=
  dateLt a b || a = b

def dtLt (a b : PyDateTime) : Bool :=
  dateLt a.date b.date ∨ (a.date = b.date ∧
    (a.hour < b.hour ∨ (a.hour = b.hour ∧
      (a.minute < b.minute ∨ (a.minute = b.minute ∧ a.second < b.second)))))

def dtLe (a b : PyDateTime) : Bool :=
  dtLt a b || a = b

/-- `a < b`: `TypeError` on mixed incomparable kinds (string vs number,
date vs datetime, anything vs `None`, ...). -/
def pyLt (a b : PyVal) : Except PyErr Bool :=
  match numVal a, numVal b with
  | some x, some y => .ok (decide (x < y))
  | _, _ =>
    match a, b with
    | .str s, .str t => .ok (decide (s < t))
    | .date d, .date e => .ok (dateLt d e)
    | .datetime d, .datetime e => .ok (dtLt d e)
    | _, _ => .error .typeError

/-- `a <= b`. -/
def pyLe (a b : PyVal) : Except PyErr Bool :=
  match numVal a, numVal b with
  | some x, some y => .ok (decide (x ≤ y))
  | _, _ =>
    match a, b with
    | .str s, .str t => .ok (decide (s ≤ t))
    | .date d, .date e => .ok (dateLe d e)
    | .datetime d, .datetime e => .ok (dtLe d e)
    | _, _ => .error .typeError

namespace TypeValidator

/-- `TypeValidator.compare`: dispatch on the operator string; unknown
operators raise `ValueError`, incomparable operands raise `TypeError`
(`>` and `>=` are Python's reflected `<` and `<=`). -/
def compare (a b : PyVal) (op : String) : Except PyErr Bool :=
  if op = "==" then .ok (pyEq a b)
  else if op = "!=" then .ok (!pyEq a b)
  else if op = "<" then pyLt a b
  else if op = "<=" then pyLe a b
  else if op = ">" then pyLt b a
  else if op = ">=" then pyLe b a
  else .error .valueError

end TypeValidator

/-! ## Graph store (`api/api/models/{node,edge,graph}.py`) -/

/-- A node: string id, typed attribute maps.  `addr` models CPython object
identity (`deepcopy` yields a fresh `addr`); `Node.__eq__`/`__hash__` compare
ids only. -/
structure PyNode where
  addr : Nat
  node_id : String
  attributes : List (String × PyVal)
  attribute_types : List (String × ValueType)
deriving DecidableEq, Repr

inductive EdgeDirection
  | DIRECTED
  | UNDIRECTED
deriving DecidableEq, Repr

structure PyEdge where
  edge_id : String
  source_node : PyNode
  target_node : PyNode
  direction : EdgeDirection
  attributes : List (String × PyVal)
  attribute_types : List (String × ValueType)
deriving DecidableEq, Repr

/-- `set_attribute` (identical on Node and Edge): a `None` value is stored
with the STR tag; otherwise the value is stored converted to its detected
type.  Converting a value to its own detected type cannot fail (the detected
type is chosen so that the conversion succeeds), so the error fallback branch
is unreachable. -/
def setAttribute (attrs : List (String × PyVal)) (types : List (String × ValueType))
    (k : String) (v : PyVal) : List (String × PyVal) × List (String × ValueType) :=
  match v with
  | .none => (PyDict.insert attrs k .none, PyDict.insert types k .STR)
  | v =>
    let t := TypeValidator.detect_type v
    let w :=
      match TypeValidator.validate_and_convert v t with
      | .ok w => w
      | .error _ => v
    (PyDict.insert attrs k w, PyDict.insert types k t)

/-- `Edge.__init__`: starts from empty attribute maps and runs
`set_attribute` for each keyword pair in order. -/
def mkEdge (eid : String) (s t : PyNode) (dir : EdgeDirection)
    (attrs : List (String × PyVal)) : PyEdge :=
  let m := attrs.foldl (fun acc p => setAttribute acc.1 acc.2 p.1 p.2) ([], [])
  { edge_id := eid, source_node := s, target_node := t, direction := dir,
    attributes := m.1, attribute_types := m.2 }

def PyEdge.srcId (e : PyEdge) : String := e.source_node.node_id

def PyEdge.tgtId (e : PyEdge) : String := e.target_node.node_id

/-- `edge.get_other_node(node)`; node comparison is `Node.__eq__`, i.e. by
id. -/
def PyEdge.get_other_node (e : PyEdge) (n : PyNode) : Option PyNode :=
  if e.srcId = n.node_id then some e.target_node
  else if e.tgtId = n.node_id then some e.source_node
  else Option.none

/-- The `Graph` class: node table, edge table and the derived
`_adjacency_list`. -/
structure PyGraph where
  graph_id : String
  nodes : List (String × PyNode)
  edges : List (String × PyEdge)
  adj : List (String × List PyEdge)
deriving DecidableEq, Repr

/-- `Graph.__init__`. -/
def PyGraph.init (gid : String) : PyGraph :=
  ⟨gid, [], [], []⟩

/-- `Graph.add_node`: fails on a duplicate id, otherwise registers the node
and an empty adjacency entry. -/
def PyGraph.add_node (g : PyGraph) (n : PyNode) : Except PyErr PyGraph :=
  if PyDict.contains g.nodes n.node_id then .error .valueError
  else
    .ok { g with
          nodes := PyDict.insert g.nodes n.node_id n,
          adj := PyDict.insert g.adj n.node_id [] }

/-- `Graph.add_edge`: fails when either endpoint id is absent or the edge id
already exists; otherwise stores the edge and appends it to the adjacency
entry of both endpoints — once only for a self-loop.  (The source indexes
`_adjacency_list[...]` directly; a missing entry would be a `KeyError`, which
is unreachable since every node key has an adjacency entry.) -/
def PyGraph.add_edge (g : PyGraph) (e : PyEdge) : Except PyErr PyGraph :=
  if ¬ PyDict.contains g.nodes e.srcId then .error .valueError
  else if ¬ PyDict.contains g.nodes e.tgtId then .error .valueError
  else if PyDict.contains g.edges e.edge_id then .error .valueError
  else
    let adj1 := PyDict.insert g.adj e.srcId (((PyDict.get g.adj e.srcId).getD []) ++ [e])
    let adj2 :=
      if e.srcId ≠ e.tgtId then
        PyDict.insert adj1 e.tgtId (((PyDict.get adj1 e.tgtId).getD []) ++ [e])
      else adj1
    .ok { g with edges := PyDict.insert g.edges e.edge_id e, adj := adj2 }

def PyGraph.get_node (g : PyGraph) (nid : String) : Option PyNode :=
  PyDict.get g.nodes nid

def PyGraph.get_edge (g : PyGraph) (eid : String) : Option PyEdge :=
  PyDict.get g.edges eid

def PyGraph.get_all_nodes (g : PyGraph) : List PyNode :=
  PyDict.values g.nodes

def PyGraph.get_all_edges (g : PyGraph) : List PyEdge :=
  PyDict.values g.edges

/-- Python `set.add` on nodes: dedup by `Node.__eq__`/`__hash__`, i.e. by
id. -/
def nodeSetAdd (l : List PyNode) (n : PyNode) : List PyNode :=
  if l.any (fun m => m.node_id = n.node_id) then l else l ++ [n]

/-- The loop body of `Graph.get_neighbors`: add the other end of the edge to
the set; the explicit self-loop branch fires only when `get_other_node`
returned `None`. -/
def neighborsStep (n : PyNode) (acc : List PyNode) (e : PyEdge) : List PyNode :=
  match e.get_other_node n with
  | some other => nodeSetAdd acc other
  | Option.none =>
    if e.srcId = n.node_id ∧ e.tgtId = n.node_id then nodeSetAdd acc n else acc

/-- `Graph.get_neighbors`: collect the other end of every adjacent edge into
a set. -/
def PyGraph.get_neighbors (g : PyGraph) (n : PyNode) : List PyNode :=
  ((PyDict.get g.adj n.node_id).getD []).foldl (neighborsStep n) []

/-- `Graph.get_outgoing_edges`: an UNDIRECTED edge counts as outgoing from
both endpoints. -/
def PyGraph.get_outgoing_edges (g : PyGraph) (n : PyNode) : List PyEdge :=
  ((PyDict.get g.adj n.node_id).getD []).filter
    (fun e => decide (e.srcId = n.node_id ∨
      (e.direction = .UNDIRECTED ∧ e.tgtId = n.node_id)))

/-- `Graph.remove_edge`: silently a no-op when the id is absent; otherwise
drops the edge from both adjacency entries and from the edge table. -/
def PyGraph.remove_edge (g : PyGraph) (eid : String) : PyGraph :=
  match PyDict.get g.edges eid with
  | Option.none => g
  | some e =>
    let sId := e.srcId
    let tId := e.tgtId
    let adj1 :=
      if PyDict.contains g.adj sId then
        PyDict.insert g.adj sId
          (((PyDict.get g.adj sId).getD []).filter (fun x => decide (x.edge_id ≠ eid)))
      else g.adj
    let adj2 :=
      if PyDict.contains adj1 tId then
        PyDict.insert adj1 tId
          (((PyDict.get adj1 tId).getD []).filter (fun x => decide (x.edge_id ≠ eid)))
      else adj1
    { g with edges := PyDict.erase g.edges eid, adj := adj2 }

/-- `Graph.remove_node`: fails when the id is absent; otherwise collects the
incident edge ids (a Python set — modelled as the deduplicated adjacency
order; edge removal is order-independent), removes them, then deletes the
node and its adjacency entry. -/
def PyGraph.remove_node (g : PyGraph) (nid : String) : Except PyErr PyGraph :=
  if ¬ PyDict.contains g.nodes nid then .error .valueError
  else
    let ids := (((PyDict.get g.adj nid).getD []).map (·.edge_id)).dedup
    let g1 := ids.foldl (fun h eid => h.remove_edge eid) g
    .ok { g1 with nodes := PyDict.erase g1.nodes nid, adj := PyDict.erase g1.adj nid }

/-! ### `Graph.has_cycle` -/

/-- The mutable state shared by the DFS: the `visited` set and the recursion
stack (`parent_map` is written by the source but never read — the parent
check uses the `parent_id` argument — so it is not modelled). -/
structure DfsSt where
  visited : List String
  recStack : List String
deriving DecidableEq, Repr

mutual

/-- One `dfs(node_id, parent_id)` call of `Graph.has_cycle`.  `fuel` merely
bounds the recursion so Lean accepts the definition; `has_cycle` supplies
more than the DFS can ever consume (each node enters `visited` on first
entry and is never re-entered). -/
def hasCycleDfs (g : PyGraph) (fuel : Nat) (nid : String) (parent : Option String)
    (st : DfsSt) : Bool × DfsSt :=
  match fuel with
  | 0 => (false, st)
  | f + 1 =>
    let st1 : DfsSt := ⟨nid :: st.visited, nid :: st.recStack⟩
    match PyDict.get g.nodes nid with
    | Option.none => (false, st1)
    | some node =>
      let r := hasCycleEdges g f (g.get_outgoing_edges node) node parent st1
      if r.1 then (true, r.2)
      else (false, ⟨r.2.visited, r.2.recStack.erase nid⟩)

/-- The `for edge in self.get_outgoing_edges(node)` loop of `dfs`. -/
def hasCycleEdges (g : PyGraph) (fuel : Nat) (es : List PyEdge) (node : PyNode)
    (parent : Option String) (st : DfsSt) : Bool × DfsSt :=
  match fuel with
  | 0 => (false, st)
  | f + 1 =>
    match es with
    | [] => (false, st)
    | e :: rest =>
      let neighborId :=
        match e.get_other_node node with
        | some other => other.node_id
        | Option.none => node.node_id
      if neighborId ∉ st.visited then
        let r := hasCycleDfs g f neighborId (some node.node_id) st
        if r.1 then (true, r.2) else hasCycleEdges g f rest node parent r.2
      else if neighborId ∈ st.recStack then
        if e.direction = .UNDIRECTED then
          if some neighborId ≠ parent then (true, st)
          else hasCycleEdges g f rest node parent st
        else (true, st)
      else hasCycleEdges g f rest node parent st

end

/-- The `for node_id in self.nodes` driver loop of `has_cycle`, sharing the
`visited` set across components. -/
def hasCycleLoop (g : PyGraph) (fuel : Nat) : List String → DfsSt → Bool
  | [], _ => false
  | nid :: rest, st =>
    if nid ∉ st.visited then
      let r := hasCycleDfs g fuel nid Option.none st
      if r.1 then true else hasCycleLoop g fuel rest r.2
    else hasCycleLoop g fuel rest st

/-- `Graph.has_cycle`.  The fuel bound is generous: the DFS consumes at most
one unit per node entry plus one per adjacency-list element scanned. -/
def PyGraph.has_cycle (g : PyGraph) : Bool :=
  let fuel := (g.nodes.length + (PyDict.values g.adj).foldr (fun l a => l.length + a) 0 + 1) * 2 + 2
  hasCycleLoop g fuel (PyDict.keys g.nodes) ⟨[], []⟩

/-! ### `Graph.get_subgraph_by_nodes`, with object identity -/

/-- `deepcopy` of a node: identical data, fresh object identity. -/
def deepcopyNode (n : PyNode) (fresh : Nat) : PyNode :=
  { n with addr := fresh }

/-- Every node-object identity occurring anywhere in a graph: in the node
table, and in the node references held by edges and by the adjacency
index. -/
def collectAddrs (g : PyGraph) : List Nat :=
  (PyDict.values g.nodes).map (·.addr)
    ++ (PyDict.values g.edges).map (·.source_node.addr)
    ++ (PyDict.values g.edges).map (·.target_node.addr)
    ++ ((PyDict.values g.adj).flatten.map (·.source_node.addr))
    ++ ((PyDict.values g.adj).flatten.map (·.target_node.addr))

def PyGraph.maxAddr (g : PyGraph) : Nat :=
  (collectAddrs g).foldr max 0

/-- The `for node_id in node_ids: ... add_node(deepcopy(...))` loop; the
counter allocates the fresh identities produced by `deepcopy`. -/
def addNodeCopies (g : PyGraph) : List String → PyGraph → Nat → Except PyErr (PyGraph × Nat)
  | [], sub, c => .ok (sub, c)
  | nid :: rest, sub, c =>
    match PyDict.get g.nodes nid with
    | Option.none => addNodeCopies g rest sub c
    | some n =>
      match sub.add_node (deepcopyNode n c) with
      | .error err => .error err
      | .ok sub' => addNodeCopies g rest sub' (c + 1)

/-- The `for edge in self.edges.values()` loop: keep edges with both
endpoint ids in the requested set, re-instantiated (`Edge(...)`) against the
subgraph's own node instances.  A missing endpoint instance would be Python
`None`, making `add_edge` fail with an `AttributeError`. -/
def addSubEdges (nodeIds : List String) : List PyEdge → PyGraph → Except PyErr PyGraph
  | [], sub => .ok sub
  | e :: rest, sub =>
    if e.srcId ∈ nodeIds ∧ e.tgtId ∈ nodeIds then
      match sub.get_node e.srcId, sub.get_node e.tgtId with
      | some ns, some nt =>
        match sub.add_edge (mkEdge e.edge_id ns nt e.direction e.attributes) with
        | .error err => .error err
        | .ok sub' => addSubEdges nodeIds rest sub'
      | _, _ => .error .attributeError
    else addSubEdges nodeIds rest sub

/-- `Graph.get_subgraph_by_nodes`.  The requested ids form a Python set,
modelled as the list of its iteration order (the theorems assume it has no
duplicates, which is what a set guarantees). -/
def PyGraph.get_subgraph_by_nodes (g : PyGraph) (nodeIds : List String) : Except PyErr PyGraph :=
  match addNodeCopies g nodeIds ⟨g.graph_id ++ "_sub", [], [], []⟩ (g.maxAddr + 1) with
  | .error err => .error err
  | .ok (sub1, _) => addSubEdges nodeIds (PyDict.values g.edges) sub1

/-! ### Mutation through an alias (object identity) -/

/-- `node.set_attribute(k, v)` applied to one node object. -/
def nodeSetAttr (n : PyNode) (k : String) (v : PyVal) : PyNode :=
  let m := setAttribute n.attributes n.attribute_types k v
  { n with attributes := m.1, attribute_types := m.2 }

def touchNode (a : Nat) (k : String) (v : PyVal) (n : PyNode) : PyNode :=
  if n.addr = a then nodeSetAttr n k v else n

def edgeTouchNode (a : Nat) (k : String) (v : PyVal) (e : PyEdge) : PyEdge :=
  { e with
    source_node := touchNode a k v e.source_node,
    target_node := touchNode a k v e.target_node }

/-- The effect, on a graph, of executing `set_attribute(k, v)` on the node
object with identity `a`: every alias of that object anywhere in the graph
sees the mutation.  A graph containing no object with identity `a` is
untouched. -/
def heapSetAttr (a : Nat) (k : String) (v : PyVal) (g : PyGraph) : PyGraph :=
  { g with
    nodes := g.nodes.map (fun p => (p.1, touchNode a k v p.2)),
    edges := g.edges.map (fun p => (p.1, edgeTouchNode a k v p.2)),
    adj := g.adj.map (fun p => (p.1, p.2.map (edgeTouchNode a k v))) }

/-! ## Filter service (`core/services/filter_service.py`) -/

/-- One alternative of the operator group
`(==|!=|>=|<=|>(?![><=!])|<(?![><=!]))`, tried in the regex's order. -/
def parseOperator : List Char → Option (String × List Char)
  | '=' :: '=' :: r => some ("==", r)
  | '!' :: '=' :: r => some ("!=", r)
  | '>' :: '=' :: r => some (">=", r)
  | '<' :: '=' :: r => some ("<=", r)
  | '>' :: r =>
    match r with
    | c :: _ => if c = '>' ∨ c = '<' ∨ c = '=' ∨ c = '!' then Option.none else some (">", r)
    | [] => some (">", [])
  | '<' :: r =>
    match r with
    | c :: _ => if c = '>' ∨ c = '<' ∨ c = '=' ∨ c = '!' then Option.none else some ("<", r)
    | [] => some ("<", [])
  | _ => Option.none

/-- `_FILTER_PATTERN.match`:
`^\s*(\w+)\s*(==|!=|>=|<=|>(?![><=!])|<(?![><=!]))\s*(.+)\s*$`.
The greedy/backtracking interplay of `\s*(.+)\s*$` is collapsed: the match
succeeds iff anything (newline-free — `.` cannot match a newline) remains
after the operator, and group 3 is returned with its surrounding whitespace,
which the caller's `.strip()` erases exactly as it does for Python's
group. -/
def filterPatternMatch (s : String) : Option (String × String × String) :=
  let cs := s.toList.dropWhile isPySpace
  let w := cs.takeWhile isWordChar
  let cs1 := cs.dropWhile isWordChar
  if w.isEmpty then Option.none
  else
    let cs2 := cs1.dropWhile isPySpace
    match parseOperator cs2 with
    | Option.none => Option.none
    | some (op, cs3) =>
      if cs3.isEmpty || cs3.contains '\n' then Option.none
      else some (String.mk w, op, String.mk cs3)

/-- `FilterService._evaluate_node`: a node without the attribute never
matches; otherwise the query literal is converted to the node's stored
attribute type and compared, any `ValueError`/`TypeError` being re-raised as
a `FilterTypeError`. -/
def evaluateNode (n : PyNode) (attrName op targetValueStr : String) : Except PyErr Bool :=
  if ¬ PyDict.contains n.attributes attrName then .ok false
  else
    match TypeValidator.convert_to_opt_type (.str targetValueStr)
        (PyDict.get n.attribute_types attrName) with
    | .error _ => .error .filterTypeError
    | .ok target =>
      match TypeValidator.compare ((PyDict.get n.attributes attrName).getD .none) target op with
      | .error _ => .error .filterTypeError
      | .ok b => .ok b

/-- Python `set.add` on strings. -/
def strSetAdd (l : List String) (s : String) : List String :=
  if s ∈ l then l else l ++ [s]

/-- The `for node in graph.get_all_nodes()` loop of
`FilterService._find_matching_nodes`: the first node that raises aborts the
whole scan. -/
def collectMatches (attrName op v : String) : List PyNode → List String → Except PyErr (List String)
  | [], acc => .ok acc
  | n :: rest, acc =>
    match evaluateNode n attrName op v with
    | .error e => .error e
    | .ok true => collectMatches attrName op v rest (strSetAdd acc n.node_id)
    | .ok false => collectMatches attrName op v rest acc

/-- `FilterService._find_matching_nodes` (always called after validation, so
re-matching the pattern cannot fail). -/
def filterFindMatching (g : PyGraph) (q : String) : Except PyErr (List String) :=
  match filterPatternMatch q with
  | Option.none => .error .attributeError
  | some (a, op, vraw) => collectMatches a op (pyStrip vraw) g.get_all_nodes []

/-- `FilterService._validate_query` followed by the Template Method
`execute`: validate → find matching ids → `get_subgraph_by_nodes`. -/
def FilterService.execute (g : PyGraph) (q : String) : Except PyErr PyGraph :=
  if pyStrip q = "" then .error .filterParseError
  else if (filterPatternMatch q).isNone then .error .filterParseError
  else
    match filterFindMatching g q with
    | .error e => .error e
    | .ok ids => g.get_subgraph_by_nodes ids

/-! ## Search service (`core/services/search_service.py`) -/

/-- `_VALUE_PATTERN.match`: `^(\w+)=(.+)$` (again `.` cannot match a
newline). -/
def valuePatternMatch (s : String) : Option (String × String) :=
  let cs := s.toList
  let w := cs.takeWhile isWordChar
  let cs1 := cs.dropWhile isWordChar
  if w.isEmpty then Option.none
  else
    match cs1 with
    | '=' :: rest =>
      if rest.isEmpty || rest.contains '\n' then Option.none
      else some (String.mk w, String.mk rest)
    | _ => Option.none

/-- `SearchService._find_by_name`: nodes having any attribute whose name
contains the token case-insensitively. -/
def findByName (g : PyGraph) (attrName : String) : List String :=
  g.get_all_nodes.foldl
    (fun acc n =>
      if (PyDict.keys n.attributes).any (fun key => pyInStr (pyToLower attrName) (pyToLower key))
      then strSetAdd acc n.node_id
      else acc)
    []

/-- The inner `for key, attr_val in node.attributes.items()` loop of
`_find_by_value`: the node matches when some case-insensitively equal
attribute name holds a non-null value whose string rendering contains the
query value (the loop `break`s after the first such pair). -/
def findByValueNode (n : PyNode) (attrLower valueLower : String) : Bool :=
  n.attributes.any
    (fun p => decide (pyToLower p.1 = attrLower ∧ p.2 ≠ .none ∧
      pyInStr valueLower (pyToLower (pyStrRender p.2))))

/-- `SearchService._find_by_value`. -/
def findByValue (g : PyGraph) (attrName value : String) : List String :=
  g.get_all_nodes.foldl
    (fun acc n =>
      if findByValueNode n (pyToLower attrName) (pyToLower value) then strSetAdd acc n.node_id
      else acc)
    []

/-- `SearchService._find_matching_nodes`: value mode when the stripped query
matches `^(\w+)=(.+)$`, name mode otherwise. -/
def searchFindMatching (g : PyGraph) (q : String) : List String :=
  let qs := pyStrip q
  match valuePatternMatch qs with
  | some (a, v) => findByValue g a (pyStrip v)
  | Option.none => findByName g qs

/-- `SearchService._validate_query` followed by `execute`. -/
def SearchService.execute (g : PyGraph) (q : String) : Except PyErr PyGraph :=
  if pyStrip q = "" then .error .searchParseError
  else g.get_subgraph_by_nodes (searchFindMatching g q)

/-! ## Workspace (`core/graph_platform/workspace.py`) -/

/-- The workspace state observable through `current_graph`,
`original_graph` and `history_depth`.  `deepcopy` preserves every observable
value, so snapshots are modelled by the graph value itself. -/
structure Workspace where
  originalGraph : PyGraph
  currentGraph : PyGraph
  history : List PyGraph
  maxHistory : Nat
deriving DecidableEq, Repr

/-- `Workspace._push_snapshot`: drop the oldest snapshot at capacity, then
append a copy of the current graph. -/
def Workspace.pushSnapshot (w : Workspace) : Workspace :=
  let h := if w.history.length ≥ w.maxHistory then w.history.drop 1 else w.history
  { w with history := h ++ [w.currentGraph] }

/-- `Workspace.apply_filter`: push a snapshot, then run the filter service
on the current graph.  An exception from the service propagates with the
snapshot already pushed; the result is (workspace state afterwards, raised
exception if any). -/
def Workspace.apply_filter (w : Workspace) (q : String) : Workspace × Option PyErr :=
  match FilterService.execute w.pushSnapshot.currentGraph q with
  | .ok g' => ({ w.pushSnapshot with currentGraph := g' }, Option.none)
  | .error e => (w.pushSnapshot, some e)

/-- `Workspace.apply_search`: same shape as `apply_filter`. -/
def Workspace.apply_search (w : Workspace) (q : String) : Workspace × Option PyErr :=
  match SearchService.execute w.pushSnapshot.currentGraph q with
  | .ok g' => ({ w.pushSnapshot with currentGraph := g' }, Option.none)
  | .error e => (w.pushSnapshot, some e)

/-! ## The graph-store invariant and reachability -/

/-- The inductive invariant maintained by the four mutating graph
operations: dictionary well-shapedness (keys are unique and agree with the
stored ids), referential integrity of edge endpoints, and exactness of the
adjacency index (it lists precisely the edges touching each node, each
once). -/
structure GraphWF (g : PyGraph) : Prop where
  nodesNodup : (PyDict.keys g.nodes).Nodup
  edgesNodup : (PyDict.keys g.edges).Nodup
  adjNodup : (PyDict.keys g.adj).Nodup
  nodesKeyed : ∀ p ∈ g.nodes, (p : String × PyNode).2.node_id = p.1
  edgesKeyed : ∀ p ∈ g.edges, (p : String × PyEdge).2.edge_id = p.1
  adjKeysSub : ∀ k ∈ PyDict.keys g.adj, k ∈ PyDict.keys g.nodes
  nodeKeysSub : ∀ k ∈ PyDict.keys g.nodes, k ∈ PyDict.keys g.adj
  endpointsPresent : ∀ p ∈ g.edges, PyDict.contains g.nodes (p : String × PyEdge).2.srcId = true ∧
    PyDict.contains g.nodes (p : String × PyEdge).2.tgtId = true
  adjIdsNodup : ∀ q ∈ g.adj, ((q : String × List PyEdge).2.map PyEdge.edge_id).Nodup
  adjSound : ∀ q ∈ g.adj, ∀ e ∈ (q : String × List PyEdge).2,
    PyDict.get g.edges e.edge_id = some e ∧ (e.srcId = q.1 ∨ e.tgtId = q.1)
  adjComplete : ∀ p ∈ g.edges, ∀ q ∈ g.adj,
    ((p : String × PyEdge).2.srcId = (q : String × List PyEdge).1 ∨ p.2.tgtId = q.1) → p.2 ∈ q.2

theorem graphWF_iff (g : PyGraph) :
    GraphWF g ↔
      ((PyDict.keys g.nodes).Nodup ∧
       (PyDict.keys g.edges).Nodup ∧
       (PyDict.keys g.adj).Nodup ∧
       (∀ p ∈ g.nodes, (p : String × PyNode).2.node_id = p.1) ∧
       (∀ p ∈ g.edges, (p : String × PyEdge).2.edge_id = p.1) ∧
       (∀ k ∈ PyDict.keys g.adj, k ∈ PyDict.keys g.nodes) ∧
       (∀ k ∈ PyDict.keys g.nodes, k ∈ PyDict.keys g.adj) ∧
       (∀ p ∈ g.edges, PyDict.contains g.nodes (p : String × PyEdge).2.srcId = true ∧
         PyDict.contains g.nodes (p : String × PyEdge).2.tgtId = true) ∧
       (∀ q ∈ g.adj, ((q : String × List PyEdge).2.map PyEdge.edge_id).Nodup) ∧
       (∀ q ∈ g.adj, ∀ e ∈ (q : String × List PyEdge).2,
         PyDict.get g.edges e.edge_id = some e ∧ (e.srcId = q.1 ∨ e.tgtId = q.1)) ∧
       (∀ p ∈ g.edges, ∀ q ∈ g.adj,
         ((p : String × PyEdge).2.srcId = (q : String × List PyEdge).1 ∨ p.2.tgtId = q.1) →
           p.2 ∈ q.2)) :=
  ⟨fun ⟨a, b, c, d, e, f, g', h, i, j, k⟩ => ⟨a, b, c, d, e, f, g', h, i, j, k⟩,
   fun ⟨a, b, c, d, e, f, g', h, i, j, k⟩ => ⟨a, b, c, d, e, f, g', h, i, j, k⟩⟩

instance (g : PyGraph) : Decidable (GraphWF g) :=
  decidable_of_iff _ (graphWF_iff g).symm

/-- The graph states reachable from an empty graph by any sequence of
`add_node`, `add_edge`, `remove_node` and `remove_edge` calls (a failed call
raises before mutating, leaving the state unchanged). -/
inductive Reachable : PyGraph → Prop
  | empty (gid : String) : Reachable (PyGraph.init gid)
  | addNode {g g' : PyGraph} {n : PyNode} :
      Reachable g → g.add_node n = .ok g' → Reachable g'
  | addEdge {g g' : PyGraph} {e : PyEdge} :
      Reachable g → g.add_edge e = .ok g' → Reachable g'
  | removeNode {g g' : PyGraph} {nid : String} :
      Reachable g → g.remove_node nid = .ok g' → Reachable g'
  | removeEdge {g : PyGraph} (eid : String) :
      Reachable g → Reachable (g.remove_edge eid)

theorem graphWF_init (gid : String) : GraphWF (PyGraph.init gid) := by
  constructor <;> simp [PyGraph.init, PyDict.keys]

theorem add_node_ok (g : PyGraph) (n : PyNode) (g' : PyGraph)
    (h : g.add_node n = .ok g') :
    PyDict.contains g.nodes n.node_id = false ∧
      g' = { g with
             nodes := PyDict.insert g.nodes n.node_id n,
             adj := PyDict.insert g.adj n.node_id [] } := by
  unfold PyGraph.add_node at h
  by_cases hc : PyDict.contains g.nodes n.node_id
  · simp [hc] at h
  · simp only [hc, if_false, Bool.false_eq_true, Except.ok.injEq] at h
    exact ⟨by simpa using hc, h.symm⟩

theorem graphWF_add_node {g : PyGraph} {n : PyNode} {g' : PyGraph}
    (hwf : GraphWF g) (h : g.add_node n = .ok g') : GraphWF g' := by
  obtain ⟨hc, rfl⟩ := add_node_ok g n g' h
  have hcadj : PyDict.contains g.adj n.node_id = false := by
    by_contra hx
    have : n.node_id ∈ PyDict.keys g.adj :=
      (PyDict.contains_iff_mem_keys _ _).mp (by simpa using hx)
    have : n.node_id ∈ PyDict.keys g.nodes := hwf.adjKeysSub _ this
    rw [← PyDict.contains_iff_mem_keys] at this
    rw [this] at hc
    exact Bool.true_eq_false.mp hc
  constructor
  · exact PyDict.nodup_keys_insert _ _ _ hwf.nodesNodup
  · exact hwf.edgesNodup
  · exact PyDict.nodup_keys_insert _ _ _ hwf.adjNodup
  · intro p hp
    rcases (PyDict.mem_insert_of_not_contains _ _ _ hc p).mp hp with h1 | h1
    · exact hwf.nodesKeyed p h1
    · rw [h1]
  · exact hwf.edgesKeyed
  · intro k hk
    rw [PyDict.keys_insert_of_not_contains _ _ _ hcadj] at hk
    rw [PyDict.keys_insert_of_not_contains _ _ _ hc]
    rcases List.mem_append.mp hk with h1 | h1
    · exact List.mem_append_left _ (hwf.adjKeysSub _ h1)
    · exact List.mem_append_right _ h1
  · intro k hk
    rw [PyDict.keys_insert_of_not_contains _ _ _ hc] at hk
    rw [PyDict.keys_insert_of_not_contains _ _ _ hcadj]
    rcases List.mem_append.mp hk with h1 | h1
    · exact List.mem_append_left _ (hwf.nodeKeysSub _ h1)
    · exact List.mem_append_right _ h1
  · intro p hp
    have h1 := hwf.endpointsPresent p hp
    constructor
    · by_cases hs : n.node_id = p.2.srcId
      · rw [← hs, PyDict.contains]
        rw [PyDict.get_insert_self g.nodes n.node_id n]
        rfl
      · rw [PyDict.contains_insert_ne _ _ _ _ hs]
        exact h1.1
    · by_cases hs : n.node_id = p.2.tgtId
      · rw [← hs, PyDict.contains]
        rw [PyDict.get_insert_self g.nodes n.node_id n]
        rfl
      · rw [PyDict.contains_insert_ne _ _ _ _ hs]
        exact h1.2
  · intro q hq
    rcases (PyDict.mem_insert_of_not_contains _ _ _ hcadj q).mp hq with h1 | h1
    · exact hwf.adjIdsNodup q h1
    · rw [h1]
      simp
  · intro q hq e he
    rcases (PyDict.mem_insert_of_not_contains _ _ _ hcadj q).mp hq with h1 | h1
    · exact hwf.adjSound q h1 e he
    · rw [h1] at he
      simp at he
  · intro p hp q hq htouch
    rcases (PyDict.mem_insert_of_not_contains _ _ _ hcadj q).mp hq with h1 | h1
    · exact hwf.adjComplete p hp q h1 htouch
    · exfalso
      have h2 := hwf.endpointsPresent p hp
      rw [h1] at htouch
      simp only at htouch
      rcases htouch with ht | ht
      · rw [← ht] at hc
        rw [h2.1] at hc
        exact Bool.true_eq_false.mp hc
      · rw [← ht] at hc
        rw [h2.2] at hc
        exact Bool.true_eq_false.mp hc

/-- The adjacency table produced by a successful `add_edge`. -/
def addEdgeAdj (g : PyGraph) (e : PyEdge) : List (String × List PyEdge) :=
  let adj1 := PyDict.insert g.adj e.srcId (((PyDict.get g.adj e.srcId).getD []) ++ [e])
  if e.srcId ≠ e.tgtId then
    PyDict.insert adj1 e.tgtId (((PyDict.get adj1 e.tgtId).getD []) ++ [e])
  else adj1

theorem add_edge_ok (g : PyGraph) (e : PyEdge) (g' : PyGraph)
    (h : g.add_edge e = .ok g') :
    PyDict.contains g.nodes e.srcId = true ∧
    PyDict.contains g.nodes e.tgtId = true ∧
    PyDict.contains g.edges e.edge_id = false ∧
    g' = { g with
           edges := PyDict.insert g.edges e.edge_id e,
           adj := addEdgeAdj g e } := by
  unfold PyGraph.add_edge at h
  by_cases h1 : PyDict.contains g.nodes e.srcId
  · by_cases h2 : PyDict.contains g.nodes e.tgtId
    · by_cases h3 : PyDict.contains g.edges e.edge_id
      · simp [h1, h2, h3] at h
      · simp only [h1, h2, h3, not_true_eq_false, Bool.false_eq_true, if_false,
          Except.ok.injEq] at h
        refine ⟨h1, h2, by simpa using h3, ?_⟩
        rw [← h]
        rfl
    · simp [h1, h2] at h
  · simp [h1] at h

/-- Membership characterisation of the adjacency table after `add_edge`
(uniform over the self-loop and two-endpoint cases). -/
theorem mem_addEdgeAdj (g : PyGraph) (e : PyEdge) (hwf : GraphWF g)
    (hs : PyDict.contains g.nodes e.srcId = true)
    (ht : PyDict.contains g.nodes e.tgtId = true)
    (q : String × List PyEdge) :
    q ∈ addEdgeAdj g e ↔
      ((q ∈ g.adj ∧ q.1 ≠ e.srcId ∧ q.1 ≠ e.tgtId) ∨
       ((q.1 = e.srcId ∨ q.1 = e.tgtId) ∧
        ∃ l, PyDict.get g.adj q.1 = some l ∧ q.2 = l ++ [e])) := by
  have hsadj : PyDict.contains g.adj e.srcId = true := by
    rw [PyDict.contains_iff_mem_keys]
    exact hwf.nodeKeysSub _ ((PyDict.contains_iff_mem_keys _ _).mp hs)
  have htadj : PyDict.contains g.adj e.tgtId = true := by
    rw [PyDict.contains_iff_mem_keys]
    exact hwf.nodeKeysSub _ ((PyDict.contains_iff_mem_keys _ _).mp ht)
  obtain ⟨ls, hls⟩ : ∃ l, PyDict.get g.adj e.srcId = some l := by
    unfold PyDict.contains at hsadj
    cases hg : PyDict.get g.adj e.srcId with
    | none => rw [hg] at hsadj; simp at hsadj
    | some l => exact ⟨l, rfl⟩
  unfold addEdgeAdj
  by_cases hst : e.srcId = e.tgtId
  · simp only [hst, ne_eq, not_true_eq_false, if_false]
    rw [← hst, hls]
    rw [PyDict.mem_insert_of_contains _ _ _ hsadj q]
    simp only [Option.getD_some]
    constructor
    · rintro (⟨h1, h2⟩ | h1)
      · exact Or.inl ⟨h1, h2, hst ▸ h2⟩
      · refine Or.inr ⟨Or.inl (by rw [h1]), ls, ?_, by rw [h1]⟩
        rw [h1]
        exact hls
    · rintro (⟨h1, h2, _⟩ | ⟨hq1, l, hl, hq2⟩)
      · exact Or.inl ⟨h1, h2⟩
      · right
        have hq1' : q.1 = e.srcId := by
          rcases hq1 with h | h <;> exact h
        rw [hq1'] at hl
        rw [hls] at hl
        cases hl
        have : q = (q.1, q.2) := rfl
        rw [this, hq1', hq2]
  · obtain ⟨lt, hlt⟩ : ∃ l, PyDict.get g.adj e.tgtId = some l := by
      unfold PyDict.contains at htadj
      cases hg : PyDict.get g.adj e.tgtId with
      | none => rw [hg] at htadj; simp at htadj
      | some l => exact ⟨l, rfl⟩
    have hqlt : PyDict.get (PyDict.insert g.adj e.srcId (ls ++ [e])) e.tgtId = some lt := by
      rw [PyDict.get_insert_ne _ _ _ _ hst]
      exact hlt
    have hc1 : PyDict.contains (PyDict.insert g.adj e.srcId (((PyDict.get g.adj e.srcId).getD []) ++ [e])) e.tgtId = true := by
      rw [hls]
      simp only [Option.getD_some]
      rw [PyDict.contains_insert_ne _ _ _ _ hst]
      exact htadj
    simp only [ne_eq, hst, not_false_eq_true, if_true]
    rw [PyDict.mem_insert_of_contains _ _ _ hc1 q]
    rw [hls]
    simp only [Option.getD_some]
    rw [hqlt]
    simp only [Option.getD_some]
    rw [PyDict.mem_insert_of_contains _ _ _ hsadj q]
    constructor
    · rintro (⟨(⟨h1, h2⟩ | h1), h3⟩ | h1)
      · exact Or.inl ⟨h1, h2, h3⟩
      · refine Or.inr ⟨Or.inl (by rw [h1]), ls, ?_, by rw [h1]⟩
        rw [h1]
        exact hls
      · refine Or.inr ⟨Or.inr (by rw [h1]), lt, ?_, by rw [h1]⟩
        rw [h1]
        exact hlt
    · rintro (⟨h1, h2, h3⟩ | ⟨hq1, l, hl, hq2⟩)
      · exact Or.inl ⟨Or.inl ⟨h1, h2⟩, h3⟩
      · rcases hq1 with hq1 | hq1
        · left
          refine ⟨Or.inr ?_, by rw [hq1]; exact hst⟩
          rw [hq1] at hl
          rw [hls] at hl
          cases hl
          have : q = (q.1, q.2) := rfl
          rw [this, hq1, hq2]
        · right
          rw [hq1] at hl
          rw [hlt] at hl
          cases hl
          have : q = (q.1, q.2) := rfl
          rw [this, hq1, hq2]

theorem keys_addEdgeAdj (g : PyGraph) (e : PyEdge) (hwf : GraphWF g)
    (hs : PyDict.contains g.nodes e.srcId = true)
    (ht : PyDict.contains g.nodes e.tgtId = true) :
    PyDict.keys (addEdgeAdj g e) = PyDict.keys g.adj := by
  have hsadj : PyDict.contains g.adj e.srcId = true := by
    rw [PyDict.contains_iff_mem_keys]
    exact hwf.nodeKeysSub _ ((PyDict.contains_iff_mem_keys _ _).mp hs)
  have htadj : PyDict.contains g.adj e.tgtId = true := by
    rw [PyDict.contains_iff_mem_keys]
    exact hwf.nodeKeysSub _ ((PyDict.contains_iff_mem_keys _ _).mp ht)
  unfold addEdgeAdj
  by_cases hst : e.srcId = e.tgtId
  · simp only [hst, ne_eq, not_true_eq_false, if_false]
    rw [← hst]
    exact PyDict.keys_insert_of_contains _ _ _ hsadj
  · simp only [ne_eq, hst, not_false_eq_true, if_true]
    rw [PyDict.keys_insert_of_contains, PyDict.keys_insert_of_contains _ _ _ hsadj]
    rw [PyDict.contains_insert_ne _ _ _ _ hst]
    exact htadj

theorem graphWF_add_edge {g : PyGraph} {e : PyEdge} {g' : PyGraph}
    (hwf : GraphWF g) (h : g.add_edge e = .ok g') : GraphWF g' := by
  obtain ⟨hs, ht, he, rfl⟩ := add_edge_ok g e g' h
  have hmem2 := mem_addEdgeAdj g e hwf hs ht
  have hkeys2 := keys_addEdgeAdj g e hwf hs ht
  -- a member of any adjacency list never carries the new edge id
  have hadjid : ∀ (k : String) (l : List PyEdge), (k, l) ∈ g.adj →
      ∀ x ∈ l, x.edge_id ≠ e.edge_id := by
    intro k l hkl x hx hxid
    have hsound := (hwf.adjSound (k, l) hkl x hx).1
    rw [hxid] at hsound
    have : PyDict.contains g.edges e.edge_id = true := by
      unfold PyDict.contains
      rw [hsound]
      rfl
    rw [this] at he
    exact Bool.true_eq_false.mp he
  constructor
  · exact hwf.nodesNodup
  · exact PyDict.nodup_keys_insert _ _ _ hwf.edgesNodup
  · rw [hkeys2]
    exact hwf.adjNodup
  · exact hwf.nodesKeyed
  · intro p hp
    rcases (PyDict.mem_insert_of_not_contains _ _ _ he p).mp hp with h1 | h1
    · exact hwf.edgesKeyed p h1
    · rw [h1]
  · intro k hk
    rw [hkeys2] at hk
    exact hwf.adjKeysSub k hk
  · intro k hk
    rw [hkeys2]
    exact hwf.nodeKeysSub k hk
  · intro p hp
    rcases (PyDict.mem_insert_of_not_contains _ _ _ he p).mp hp with h1 | h1
    · exact hwf.endpointsPresent p h1
    · rw [h1]
      exact ⟨hs, ht⟩
  · intro q hq
    rcases (hmem2 q).mp hq with ⟨h1, _⟩ | ⟨_, l, hl, hq2⟩
    · exact hwf.adjIdsNodup q h1
    · have hql : (q.1, l) ∈ g.adj := PyDict.get_mem _ _ _ hl
      have hnd := hwf.adjIdsNodup (q.1, l) hql
      rw [hq2, List.map_append]
      rw [List.nodup_append]
      refine ⟨hnd, by simp, ?_⟩
      intro x hx hx2
      simp only [List.map_cons, List.map_nil, List.mem_singleton] at hx2
      obtain ⟨y, hy, hyx⟩ := List.mem_map.mp hx
      exact hadjid q.1 l hql y hy (hyx.trans hx2)
  · intro q hq x hx
    rcases (hmem2 q).mp hq with ⟨h1, _, _⟩ | ⟨hq1, l, hl, hq2⟩
    · have hsound := hwf.adjSound q h1 x hx
      refine ⟨?_, hsound.2⟩
      rw [PyDict.get_insert_ne _ _ _ _ ?_]
      · exact hsound.1
      · intro hcontr
        exact hadjid q.1 q.2 h1 x hx hcontr.symm
    · have hql : (q.1, l) ∈ g.adj := PyDict.get_mem _ _ _ hl
      rw [hq2] at hx
      rcases List.mem_append.mp hx with hx1 | hx1
      · have hsound := hwf.adjSound (q.1, l) hql x hx1
        refine ⟨?_, hsound.2⟩
        rw [PyDict.get_insert_ne _ _ _ _ ?_]
        · exact hsound.1
        · intro hcontr
          exact hadjid q.1 l hql x hx1 hcontr.symm
      · simp only [List.mem_singleton] at hx1
        subst hx1
        refine ⟨PyDict.get_insert_self _ _ _, ?_⟩
        rcases hq1 with h | h
        · exact Or.inl h.symm
        · exact Or.inr h.symm
  · intro p hp q hq htouch
    rcases (PyDict.mem_insert_of_not_contains _ _ _ he p).mp hp with hp1 | hp1
    · rcases (hmem2 q).mp hq with ⟨h1, _, _⟩ | ⟨hq1, l, hl, hq2⟩
      · exact hwf.adjComplete p hp1 q h1 htouch
      · have hql : (q.1, l) ∈ g.adj := PyDict.get_mem _ _ _ hl
        rw [hq2]
        exact List.mem_append_left _ (hwf.adjComplete p hp1 (q.1, l) hql htouch)
    · rw [hp1] at htouch ⊢
      simp only at htouch ⊢
      rcases (hmem2 q).mp hq with ⟨_, h2, h3⟩ | ⟨_, l, _, hq2⟩
      · exfalso
        rcases htouch with h | h
        · exact h2 h.symm
        · exact h3 h.symm
      · rw [hq2]
        exact List.mem_append_right _ (List.mem_singleton_self e)

/-- The adjacency table produced by `remove_edge` when the edge exists. -/
def removeEdgeAdj (g : PyGraph) (eid : String) (e0 : PyEdge) : List (String × List PyEdge) :=
  let adj1 :=
    if PyDict.contains g.adj e0.srcId then
      PyDict.insert g.adj e0.srcId
        (((PyDict.get g.adj e0.srcId).getD []).filter (fun x => decide (x.edge_id ≠ eid)))
    else g.adj
  if PyDict.contains adj1 e0.tgtId then
    PyDict.insert adj1 e0.tgtId
      (((PyDict.get adj1 e0.tgtId).getD []).filter (fun x => decide (x.edge_id ≠ eid)))
  else adj1

theorem remove_edge_absent (g : PyGraph) (eid : String)
    (h : PyDict.get g.edges eid = none) : g.remove_edge eid = g := by
  unfold PyGraph.remove_edge
  rw [h]

theorem remove_edge_eq_of_some (g : PyGraph) (eid : String) (e0 : PyEdge)
    (hg : PyDict.get g.edges eid = some e0) :
    g.remove_edge eid =
      { g with edges := PyDict.erase g.edges eid, adj := removeEdgeAdj g eid e0 } := by
  unfold PyGraph.remove_edge removeEdgeAdj
  rw [hg]

theorem remove_edge_nodes (g : PyGraph) (eid : String) :
    (g.remove_edge eid).nodes = g.nodes := by
  unfold PyGraph.remove_edge
  cases hg : PyDict.get g.edges eid <;> rfl

theorem remove_edge_edges_get (g : PyGraph) (eid k : String) :
    PyDict.get (g.remove_edge eid).edges k =
      if k = eid then none else PyDict.get g.edges k := by
  cases hg : PyDict.get g.edges eid with
  | none =>
    rw [remove_edge_absent g eid hg]
    by_cases hk : k = eid
    · rw [if_pos hk, hk, hg]
    · rw [if_neg hk]
  | some e0 =>
    rw [remove_edge_eq_of_some g eid e0 hg]
    by_cases hk : k = eid
    · rw [if_pos hk, hk]
      exact PyDict.get_erase_self _ _
    · rw [if_neg hk]
      exact PyDict.get_erase_ne _ _ _ (fun hkk => hk hkk.symm)

theorem keys_removeEdgeAdj (g : PyGraph) (eid : String) (e0 : PyEdge) :
    PyDict.keys (removeEdgeAdj g eid e0) = PyDict.keys g.adj := by
  unfold removeEdgeAdj
  by_cases h1 : PyDict.contains g.adj e0.srcId
  · simp only [h1, if_true]
    by_cases h2 : PyDict.contains
        (PyDict.insert g.adj e0.srcId
          (((PyDict.get g.adj e0.srcId).getD []).filter (fun x => decide (x.edge_id ≠ eid))))
        e0.tgtId
    · simp only [h2, if_true]
      rw [PyDict.keys_insert_of_contains _ _ _ h2, PyDict.keys_insert_of_contains _ _ _ h1]
    · simp only [h2, if_false, Bool.false_eq_true]
      rw [PyDict.keys_insert_of_contains _ _ _ h1]
  · simp only [h1, if_false, Bool.false_eq_true]
    by_cases h2 : PyDict.contains g.adj e0.tgtId
    · simp only [h2, if_true]
      rw [PyDict.keys_insert_of_contains _ _ _ h2]
    · simp only [h2, if_false, Bool.false_eq_true]

theorem mem_removeEdgeAdj (g : PyGraph) (eid : String) (e0 : PyEdge)
    (hwf : GraphWF g) (hg : PyDict.get g.edges eid = some e0)
    (q : String × List PyEdge) :
    q ∈ removeEdgeAdj g eid e0 ↔
      ((q ∈ g.adj ∧ q.1 ≠ e0.srcId ∧ q.1 ≠ e0.tgtId) ∨
       ((q.1 = e0.srcId ∨ q.1 = e0.tgtId) ∧
        ∃ l, PyDict.get g.adj q.1 = some l ∧
          q.2 = l.filter (fun x => decide (x.edge_id ≠ eid)))) := by
  have hp0 : (eid, e0) ∈ g.edges := PyDict.get_mem _ _ _ hg
  have hep := hwf.endpointsPresent (eid, e0) hp0
  have hsadj : PyDict.contains g.adj e0.srcId = true := by
    rw [PyDict.contains_iff_mem_keys]
    exact hwf.nodeKeysSub _ ((PyDict.contains_iff_mem_keys _ _).mp hep.1)
  have htadj : PyDict.contains g.adj e0.tgtId = true := by
    rw [PyDict.contains_iff_mem_keys]
    exact hwf.nodeKeysSub _ ((PyDict.contains_iff_mem_keys _ _).mp hep.2)
  obtain ⟨ls, hls⟩ : ∃ l, PyDict.get g.adj e0.srcId = some l := by
    unfold PyDict.contains at hsadj
    cases hx : PyDict.get g.adj e0.srcId with
    | none => rw [hx] at hsadj; simp at hsadj
    | some l => exact ⟨l, rfl⟩
  unfold removeEdgeAdj
  simp only [hsadj, if_true, hls, Option.getD_some]
  by_cases hst : e0.srcId = e0.tgtId
  · have hc1 : PyDict.contains
        (PyDict.insert g.adj e0.srcId (ls.filter (fun x => decide (x.edge_id ≠ eid))))
        e0.tgtId = true := by
      rw [← hst]
      exact PyDict.contains_insert_same _ _ _
    simp only [hc1, if_true]
    rw [← hst, PyDict.get_insert_self]
    simp only [Option.getD_some]
    have hff : (ls.filter (fun x => decide (x.edge_id ≠ eid))).filter
        (fun x => decide (x.edge_id ≠ eid)) = ls.filter (fun x => decide (x.edge_id ≠ eid)) := by
      rw [List.filter_eq_self]
      intro a ha
      exact (List.mem_filter.mp ha).2
    rw [hff]
    rw [PyDict.mem_insert_of_contains _ _ _ (PyDict.contains_insert_same _ _ _) q]
    rw [PyDict.mem_insert_of_contains _ _ _ hsadj q]
    constructor
    · rintro (⟨(⟨h1, h2⟩ | h1), h3⟩ | h1)
      · exact Or.inl ⟨h1, h2, hst ▸ h2⟩
      · exact absurd (by rw [h1]) h3
      · refine Or.inr ⟨Or.inl (by rw [h1]), ls, ?_, by rw [h1]⟩
        rw [h1]
        exact hls
    · rintro (⟨h1, h2, _⟩ | ⟨hq1, l, hl, hq2⟩)
      · exact Or.inl ⟨Or.inl ⟨h1, h2⟩, h2⟩
      · right
        have hq1' : q.1 = e0.srcId := by
          rcases hq1 with h | h <;> exact h
        rw [hq1'] at hl
        rw [hls] at hl
        cases hl
        have hqeta : q = (q.1, q.2) := rfl
        rw [hqeta, hq1', hq2]
  · obtain ⟨lt, hlt⟩ : ∃ l, PyDict.get g.adj e0.tgtId = some l := by
      unfold PyDict.contains at htadj
      cases hx : PyDict.get g.adj e0.tgtId with
      | none => rw [hx] at htadj; simp at htadj
      | some l => exact ⟨l, rfl⟩
    have hc1 : PyDict.contains
        (PyDict.insert g.adj e0.srcId (ls.filter (fun x => decide (x.edge_id ≠ eid))))
        e0.tgtId = true := by
      rw [PyDict.contains_insert_ne _ _ _ _ hst]
      exact htadj
    simp only [hc1, if_true]
    rw [PyDict.get_insert_ne _ _ _ _ hst, hlt]
    simp only [Option.getD_some]
    rw [PyDict.mem_insert_of_contains _ _ _ hc1 q]
    rw [PyDict.mem_insert_of_contains _ _ _ hsadj q]
    constructor
    · rintro (⟨(⟨h1, h2⟩ | h1), h3⟩ | h1)
      · exact Or.inl ⟨h1, h2, h3⟩
      · refine Or.inr ⟨Or.inl (by rw [h1]), ls, ?_, by rw [h1]⟩
        rw [h1]
        exact hls
      · refine Or.inr ⟨Or.inr (by rw [h1]), lt, ?_, by rw [h1]⟩
        rw [h1]
        exact hlt
    · rintro (⟨h1, h2, h3⟩ | ⟨hq1, l, hl, hq2⟩)
      · exact Or.inl ⟨Or.inl ⟨h1, h2⟩, h3⟩
      · rcases hq1 with hq1 | hq1
        · left
          refine ⟨Or.inr ?_, by rw [hq1]; exact hst⟩
          rw [hq1] at hl
          rw [hls] at hl
          cases hl
          have hqeta : q = (q.1, q.2) := rfl
          rw [hqeta, hq1, hq2]
        · right
          rw [hq1] at hl
          rw [hlt] at hl
          cases hl
          have hqeta : q = (q.1, q.2) := rfl
          rw [hqeta, hq1, hq2]

theorem graphWF_remove_edge (g : PyGraph) (eid : String) (hwf : GraphWF g) :
    GraphWF (g.remove_edge eid) := by
  cases hg : PyDict.get g.edges eid with
  | none => rw [remove_edge_absent g eid hg]; exact hwf
  | some e0 =>
    rw [remove_edge_eq_of_some g eid e0 hg]
    have hmem := mem_removeEdgeAdj g eid e0 hwf hg
    have hkeys := keys_removeEdgeAdj g eid e0
    have htouch0 : ∀ (k : String), e0.srcId = k ∨ e0.tgtId = k →
        k = e0.srcId ∨ k = e0.tgtId := by
      rintro k (h | h)
      · exact Or.inl h.symm
      · exact Or.inr h.symm
    constructor
    · exact hwf.nodesNodup
    · exact PyDict.nodup_keys_erase _ _ hwf.edgesNodup
    · rw [hkeys]
      exact hwf.adjNodup
    · exact hwf.nodesKeyed
    · intro p hp
      exact hwf.edgesKeyed p ((PyDict.mem_erase_iff _ _ p).mp hp).1
    · intro k hk
      rw [hkeys] at hk
      exact hwf.adjKeysSub k hk
    · intro k hk
      rw [hkeys]
      exact hwf.nodeKeysSub k hk
    · intro p hp
      exact hwf.endpointsPresent p ((PyDict.mem_erase_iff _ _ p).mp hp).1
    · intro q hq
      rcases (hmem q).mp hq with ⟨h1, _⟩ | ⟨_, l, hl, hq2⟩
      · exact hwf.adjIdsNodup q h1
      · have hql : (q.1, l) ∈ g.adj := PyDict.get_mem _ _ _ hl
        have hnd := hwf.adjIdsNodup (q.1, l) hql
        rw [hq2]
        exact hnd.sublist ((List.filter_sublist l).map PyEdge.edge_id)
    · intro q hq x hx
      rcases (hmem q).mp hq with ⟨h1, h2, h3⟩ | ⟨_, l, hl, hq2⟩
      · have hsound := hwf.adjSound q h1 x hx
        have hxid : x.edge_id ≠ eid := by
          intro hcontr
          rw [hcontr] at hsound
          rw [hg] at hsound
          cases Option.some.injEq .. ▸ hsound.1
          rcases hsound.2 with h | h
          · exact h2 h.symm
          · exact h3 h.symm
        refine ⟨?_, hsound.2⟩
        rw [PyDict.get_erase_ne _ _ _ (fun hkk => hxid hkk.symm)]
        exact hsound.1
      · rw [hq2] at hx
        have hx1 := List.mem_filter.mp hx
        have hxid : x.edge_id ≠ eid := by simpa using hx1.2
        have hql : (q.1, l) ∈ g.adj := PyDict.get_mem _ _ _ hl
        have hsound := hwf.adjSound (q.1, l) hql x hx1.1
        refine ⟨?_, hsound.2⟩
        rw [PyDict.get_erase_ne _ _ _ (fun hkk => hxid hkk.symm)]
        exact hsound.1
    · intro p hp q hq htouch
      have hp1 := (PyDict.mem_erase_iff _ _ p).mp hp
      have hpid : p.2.edge_id ≠ eid := by
        rw [hwf.edgesKeyed p hp1.1]
        exact hp1.2
      rcases (hmem q).mp hq with ⟨h1, _, _⟩ | ⟨_, l, hl, hq2⟩
      · exact hwf.adjComplete p hp1.1 q h1 htouch
      · have hql : (q.1, l) ∈ g.adj := PyDict.get_mem _ _ _ hl
        rw [hq2]
        rw [List.mem_filter]
        exact ⟨hwf.adjComplete p hp1.1 (q.1, l) hql htouch, by simpa using hpid⟩

theorem remove_edge_adj_keys (g : PyGraph) (eid : String) :
    PyDict.keys (g.remove_edge eid).adj = PyDict.keys g.adj := by
  cases hg : PyDict.get g.edges eid with
  | none => rw [remove_edge_absent g eid hg]
  | some e0 =>
    rw [remove_edge_eq_of_some g eid e0 hg]
    exact keys_removeEdgeAdj g eid e0

/-- `edges_to_delete` of `remove_node`: the ids of the edges in the
adjacency entry, as a set. -/
def incidentIds (g : PyGraph) (nid : String) : List String :=
  (((PyDict.get g.adj nid).getD []).map (·.edge_id)).dedup

/-- The graph produced by a successful `remove_node`. -/
def removeNodeResult (g : PyGraph) (nid : String) : PyGraph :=
  let g1 := (incidentIds g nid).foldl (fun h eid => h.remove_edge eid) g
  { g1 with nodes := PyDict.erase g1.nodes nid, adj := PyDict.erase g1.adj nid }

theorem remove_node_ok (g : PyGraph) (nid : String) (g' : PyGraph)
    (h : g.remove_node nid = .ok g') :
    PyDict.contains g.nodes nid = true ∧ g' = removeNodeResult g nid := by
  unfold PyGraph.remove_node at h
  by_cases hc : PyDict.contains g.nodes nid
  · simp only [hc, not_true_eq_false, if_false, Except.ok.injEq] at h
    exact ⟨hc, h.symm⟩
  · simp [hc] at h

theorem graphWF_fold_remove (ids : List String) (g : PyGraph) (hwf : GraphWF g) :
    GraphWF (ids.foldl (fun h eid => h.remove_edge eid) g) := by
  induction ids generalizing g with
  | nil => exact hwf
  | cons i rest ih =>
    exact ih (g.remove_edge i) (graphWF_remove_edge g i hwf)

theorem fold_remove_nodes (ids : List String) (g : PyGraph) :
    (ids.foldl (fun h eid => h.remove_edge eid) g).nodes = g.nodes := by
  induction ids generalizing g with
  | nil => rfl
  | cons i rest ih =>
    rw [List.foldl_cons, ih, remove_edge_nodes]

theorem fold_remove_adj_keys (ids : List String) (g : PyGraph) :
    PyDict.keys (ids.foldl (fun h eid => h.remove_edge eid) g).adj = PyDict.keys g.adj := by
  induction ids generalizing g with
  | nil => rfl
  | cons i rest ih =>
    rw [List.foldl_cons, ih, remove_edge_adj_keys]

theorem fold_remove_edges_get (ids : List String) (g : PyGraph) (k : String) :
    PyDict.get (ids.foldl (fun h eid => h.remove_edge eid) g).edges k =
      if k ∈ ids then none else PyDict.get g.edges k := by
  induction ids generalizing g with
  | nil => simp
  | cons i rest ih =>
    rw [List.foldl_cons, ih, remove_edge_edges_get]
    by_cases h1 : k ∈ rest
    · simp [h1]
    · by_cases h2 : k = i
      · simp [h1, h2]
      · simp [h1, h2]

theorem fold_remove_no_touch (g : PyGraph) (nid : String) (hwf : GraphWF g)
    (hcn : PyDict.contains g.nodes nid = true) (k : String) (e' : PyEdge)
    (hk : PyDict.get ((incidentIds g nid).foldl (fun h eid => h.remove_edge eid) g).edges k
      = some e') :
    ¬(e'.srcId = nid ∨ e'.tgtId = nid) := by
  intro htouch
  rw [fold_remove_edges_get] at hk
  by_cases hkin : k ∈ incidentIds g nid
  · rw [if_pos hkin] at hk
    cases hk
  · rw [if_neg hkin] at hk
    have hmem : (k, e') ∈ g.edges := PyDict.get_mem _ _ _ hk
    have hadjc : PyDict.contains g.adj nid = true := by
      rw [PyDict.contains_iff_mem_keys]
      exact hwf.nodeKeysSub _ ((PyDict.contains_iff_mem_keys _ _).mp hcn)
    obtain ⟨l, hl⟩ : ∃ l, PyDict.get g.adj nid = some l := by
      unfold PyDict.contains at hadjc
      cases hx : PyDict.get g.adj nid with
      | none => rw [hx] at hadjc; simp at hadjc
      | some l => exact ⟨l, rfl⟩
    have hql : (nid, l) ∈ g.adj := PyDict.get_mem _ _ _ hl
    have hin : e' ∈ l := hwf.adjComplete (k, e') hmem (nid, l) hql htouch
    have hkid : e'.edge_id = k := hwf.edgesKeyed (k, e') hmem
    apply hkin
    unfold incidentIds
    rw [hl]
    simp only [Option.getD_some]
    rw [List.mem_dedup]
    exact hkid ▸ List.mem_map_of_mem (·.edge_id) hin

theorem graphWF_remove_node {g : PyGraph} {nid : String} {g' : PyGraph}
    (hwf : GraphWF g) (h : g.remove_node nid = .ok g') : GraphWF g' := by
  obtain ⟨hcn, rfl⟩ := remove_node_ok g nid g' h
  unfold removeNodeResult
  set g1 := (incidentIds g nid).foldl (fun h eid => h.remove_edge eid) g with hg1
  have hwf1 : GraphWF g1 := graphWF_fold_remove _ _ hwf
  have hno : ∀ k e', PyDict.get g1.edges k = some e' → ¬(e'.srcId = nid ∨ e'.tgtId = nid) :=
    fun k e' hk => fold_remove_no_touch g nid hwf hcn k e' hk
  constructor
  · exact PyDict.nodup_keys_erase _ _ hwf1.nodesNodup
  · exact hwf1.edgesNodup
  · exact PyDict.nodup_keys_erase _ _ hwf1.adjNodup
  · intro p hp
    exact hwf1.nodesKeyed p ((PyDict.mem_erase_iff _ _ p).mp hp).1
  · exact hwf1.edgesKeyed
  · intro k hk
    rw [PyDict.keys_erase] at hk ⊢
    have hk1 := List.mem_filter.mp hk
    rw [List.mem_filter]
    exact ⟨hwf1.adjKeysSub k hk1.1, hk1.2⟩
  · intro k hk
    rw [PyDict.keys_erase] at hk ⊢
    have hk1 := List.mem_filter.mp hk
    rw [List.mem_filter]
    exact ⟨hwf1.nodeKeysSub k hk1.1, hk1.2⟩
  · intro p hp
    have hget : PyDict.get g1.edges p.1 = some p.2 := by
      have : p = (p.1, p.2) := rfl
      exact PyDict.mem_get_of_nodup _ _ _ hwf1.edgesNodup (this ▸ hp)
    have hnt := hno p.1 p.2 hget
    have hep := hwf1.endpointsPresent p hp
    constructor
    · have hsne : nid ≠ p.2.srcId := fun hcontr => hnt (Or.inl hcontr.symm)
      unfold PyDict.contains
      rw [PyDict.get_erase_ne _ _ _ hsne]
      exact hep.1
    · have htne : nid ≠ p.2.tgtId := fun hcontr => hnt (Or.inr hcontr.symm)
      unfold PyDict.contains
      rw [PyDict.get_erase_ne _ _ _ htne]
      exact hep.2
  · intro q hq
    exact hwf1.adjIdsNodup q ((PyDict.mem_erase_iff _ _ q).mp hq).1
  · intro q hq
    exact hwf1.adjSound q ((PyDict.mem_erase_iff _ _ q).mp hq).1
  · intro p hp q hq
    exact hwf1.adjComplete p hp q ((PyDict.mem_erase_iff _ _ q).mp hq).1

/-- Every reachable graph state satisfies the full invariant. -/
theorem reachable_graphWF {g : PyGraph} (h : Reachable g) : GraphWF g := by
  induction h with
  | empty gid => exact graphWF_init gid
  | addNode _ hok ih => exact graphWF_add_node ih hok
  | addEdge _ hok ih => exact graphWF_add_edge ih hok
  | removeNode _ hok ih => exact graphWF_remove_node ih hok
  | removeEdge eid _ ih => exact graphWF_remove_edge _ eid ih

/-- **C1.**  Graph integrity invariant: in every Graph state reachable from
an empty Graph by any sequence of `add_node`, `add_edge`, `remove_node` and
`remove_edge` calls, every stored edge's source and target ids resolve to
nodes present in the same graph, and for every node id the adjacency index
holds exactly the set of edges whose source or target is that node, each
registered once (a self-loop included). -/
theorem graph_integrity_invariant (g : PyGraph) (h : Reachable g) :
    (∀ eid e, PyDict.get g.edges eid = some e →
      PyDict.contains g.nodes e.srcId = true ∧ PyDict.contains g.nodes e.tgtId = true) ∧
    (∀ nid, nid ∈ PyDict.keys g.nodes →
      ∃ l, PyDict.get g.adj nid = some l ∧ (l.map PyEdge.edge_id).Nodup ∧
        ∀ e, e ∈ l ↔ (PyDict.get g.edges e.edge_id = some e ∧
          (e.srcId = nid ∨ e.tgtId = nid))) := by
  have hwf := reachable_graphWF h
  constructor
  · intro eid e hget
    exact hwf.endpointsPresent (eid, e) (PyDict.get_mem _ _ _ hget)
  · intro nid hnid
    have hadjc : PyDict.contains g.adj nid = true := by
      rw [PyDict.contains_iff_mem_keys]
      exact hwf.nodeKeysSub _ hnid
    obtain ⟨l, hl⟩ : ∃ l, PyDict.get g.adj nid = some l := by
      unfold PyDict.contains at hadjc
      cases hx : PyDict.get g.adj nid with
      | none => rw [hx] at hadjc; simp at hadjc
      | some l => exact ⟨l, rfl⟩
    have hql : (nid, l) ∈ g.adj := PyDict.get_mem _ _ _ hl
    refine ⟨l, hl, hwf.adjIdsNodup (nid, l) hql, ?_⟩
    intro e
    constructor
    · intro he
      exact hwf.adjSound (nid, l) hql e he
    · rintro ⟨hget, htouch⟩
      apply hwf.adjComplete (e.edge_id, e) (PyDict.get_mem _ _ _ hget) (nid, l) hql
      show e.srcId = nid ∨ e.tgtId = nid
      exact htouch

/-! ### Concrete witness data -/

def nA : PyNode := ⟨0, "A", [], []⟩

def nB : PyNode := ⟨1, "B", [], []⟩

def nC : PyNode := ⟨2, "C", [], []⟩

def eAB : PyEdge := ⟨"e1", nA, nB, .DIRECTED, [], []⟩

def gW1 : PyGraph := ⟨"gW", [("A", nA)], [], [("A", [])]⟩

def gW2 : PyGraph := ⟨"gW", [("A", nA), ("B", nB)], [], [("A", []), ("B", [])]⟩

def gW3 : PyGraph :=
  ⟨"gW", [("A", nA), ("B", nB)], [("e1", eAB)], [("A", [eAB]), ("B", [eAB])]⟩

theorem gW3_reachable : Reachable gW3 :=
  Reachable.addEdge (g := gW2) (e := eAB)
    (Reachable.addNode (g := gW1) (n := nB)
      (Reachable.addNode (g := PyGraph.init "gW") (n := nA)
        (Reachable.empty "gW") rfl)
      rfl)
    rfl

/-- Witness for **C1**: the invariant holds on an explicit reachable
state. -/
theorem graph_integrity_invariant_witness :
    Reachable gW3 ∧
    ((∀ eid e, PyDict.get gW3.edges eid = some e →
      PyDict.contains gW3.nodes e.srcId = true ∧ PyDict.contains gW3.nodes e.tgtId = true) ∧
     (∀ nid, nid ∈ PyDict.keys gW3.nodes →
       ∃ l, PyDict.get gW3.adj nid = some l ∧ (l.map PyEdge.edge_id).Nodup ∧
         ∀ e, e ∈ l ↔ (PyDict.get gW3.edges e.edge_id = some e ∧
           (e.srcId = nid ∨ e.tgtId = nid)))) :=
  ⟨gW3_reachable, graph_integrity_invariant gW3 gW3_reachable⟩

/-! ### C2: cycle detection on mixed graphs -/

/-- Test-data constructor: a bare node / attribute-free edge, and a graph
whose adjacency index lists, for each node, the edges touching it in
insertion order — exactly what the `add_node`/`add_edge` sequence
builds. -/
def tN (id : String) : PyNode := ⟨0, id, [], []⟩

def tE (eid sid tid : String) (dir : EdgeDirection) : PyEdge :=
  ⟨eid, tN sid, tN tid, dir, [], []⟩

def buildGraph (gid : String) (ns : List PyNode) (es : List PyEdge) : PyGraph :=
  ⟨gid, ns.map (fun n => (n.node_id, n)), es.map (fun e => (e.edge_id, e)),
   ns.map (fun n =>
     (n.node_id, es.filter (fun e => decide (e.srcId = n.node_id ∨ e.tgtId = n.node_id))))⟩

def gTriDirected : PyGraph :=
  buildGraph "triD" [tN "A", tN "B", tN "C"]
    [tE "e1" "A" "B" .DIRECTED, tE "e2" "B" "C" .DIRECTED, tE "e3" "C" "A" .DIRECTED]

def gTriUndirected : PyGraph :=
  buildGraph "triU" [tN "A", tN "B", tN "C"]
    [tE "e1" "A" "B" .UNDIRECTED, tE "e2" "B" "C" .UNDIRECTED, tE "e3" "C" "A" .UNDIRECTED]

def gPathUndirected : PyGraph :=
  buildGraph "pathU" [tN "A", tN "B", tN "C"]
    [tE "e1" "A" "B" .UNDIRECTED, tE "e2" "B" "C" .UNDIRECTED]

def gSelfLoopDirected : PyGraph :=
  buildGraph "loopD" [tN "A"] [tE "e1" "A" "A" .DIRECTED]

def gSelfLoopUndirected : PyGraph :=
  buildGraph "loopU" [tN "A"] [tE "e1" "A" "A" .UNDIRECTED]

def gSingleUndirected : PyGraph :=
  buildGraph "edgeU" [tN "A", tN "B"] [tE "e1" "A" "B" .UNDIRECTED]

def gTwoCycleDirected : PyGraph :=
  buildGraph "d2" [tN "A", tN "B"]
    [tE "e1" "A" "B" .DIRECTED, tE "e2" "B" "A" .DIRECTED]

/-- **C2.**  Cycle detection on mixed graphs, each clause of the claim
instantiated by its defining example: a DFS-reachable directed back-edge
reports a cycle (directed triangle `A→B→C→A`, and the two-node directed
cycle `A→B→A`); an undirected triangle `A–B–C–A` reports a cycle; a single
self-loop (directed or undirected) reports a cycle; an undirected path
`A–B–C` reports none; and an undirected back-edge to the DFS parent is not a
cycle (single undirected edge `A–B` reports none), while an undirected
back-edge to a non-parent stack node is (the undirected triangle). -/
theorem has_cycle_mixed_graphs :
    gTriDirected.has_cycle = true ∧
    gTwoCycleDirected.has_cycle = true ∧
    gTriUndirected.has_cycle = true ∧
    gSelfLoopDirected.has_cycle = true ∧
    gSelfLoopUndirected.has_cycle = true ∧
    gPathUndirected.has_cycle = false ∧
    gSingleUndirected.has_cycle = false := by
  refine ⟨?_, ?_, ?_, ?_, ?_, ?_, ?_⟩ <;> decide

/-! ### C6: cascading and idempotent removal -/

/-- **C6.**  `remove_node` on an absent id fails; on a present id it removes
exactly the edges incident to that node (and no other edge) and then the
node itself, leaving other nodes untouched; and `remove_edge` on an absent
edge id is a no-op raising no error, for any number of repetitions. -/
theorem removal_cascade_and_idempotence (g : PyGraph) (nid eid : String)
    (hwf : GraphWF g) :
    (PyDict.contains g.nodes nid = false → g.remove_node nid = .error .valueError) ∧
    (PyDict.contains g.nodes nid = true →
      ∃ g', g.remove_node nid = .ok g' ∧
        (∀ k e, PyDict.get g'.edges k = some e ↔
          (PyDict.get g.edges k = some e ∧ ¬(e.srcId = nid ∨ e.tgtId = nid))) ∧
        PyDict.get g'.nodes nid = none ∧
        (∀ x, x ≠ nid → PyDict.get g'.nodes x = PyDict.get g.nodes x)) ∧
    (PyDict.contains g.edges eid = false →
      ∀ m : Nat, (fun h => PyGraph.remove_edge h eid)^[m] g = g) := by
  refine ⟨?_, ?_, ?_⟩
  · intro habs
    unfold PyGraph.remove_node
    rw [if_pos]
    rw [habs]
    exact Bool.false_ne_true
  · intro hcn
    refine ⟨removeNodeResult g nid, ?_, ?_, ?_, ?_⟩
    · unfold PyGraph.remove_node removeNodeResult incidentIds
      rw [if_neg (by rw [hcn]; exact fun h => h rfl)]
    · intro k e
      constructor
      · intro hk
        have hk1 : PyDict.get ((incidentIds g nid).foldl
            (fun h eid => h.remove_edge eid) g).edges k = some e := hk
        have hne := fold_remove_no_touch g nid hwf hcn k e hk1
        rw [fold_remove_edges_get] at hk1
        by_cases hkin : k ∈ incidentIds g nid
        · rw [if_pos hkin] at hk1
          cases hk1
        · rw [if_neg hkin] at hk1
          exact ⟨hk1, hne⟩
      · rintro ⟨hk, hne⟩
        show PyDict.get ((incidentIds g nid).foldl
            (fun h eid => h.remove_edge eid) g).edges k = some e
        rw [fold_remove_edges_get]
        rw [if_neg ?notin]
        · exact hk
        case notin =>
          intro hkin
          have hadjc : PyDict.contains g.adj nid = true := by
            rw [PyDict.contains_iff_mem_keys]
            exact hwf.nodeKeysSub _ ((PyDict.contains_iff_mem_keys _ _).mp hcn)
          obtain ⟨l, hl⟩ : ∃ l, PyDict.get g.adj nid = some l := by
            unfold PyDict.contains at hadjc
            cases hx : PyDict.get g.adj nid with
            | none => rw [hx] at hadjc; simp at hadjc
            | some l => exact ⟨l, rfl⟩
          unfold incidentIds at hkin
          rw [hl] at hkin
          simp only [Option.getD_some, List.mem_dedup] at hkin
          obtain ⟨x, hx, hxid⟩ := List.mem_map.mp hkin
          have hsound := hwf.adjSound (nid, l) (PyDict.get_mem _ _ _ hl) x hx
          rw [hxid] at hsound
          rw [hk] at hsound
          have hxe : x = e := by
            have := hsound.1
            exact (Option.some.injEq _ _).mp this.symm
          apply hne
          rw [← hxe]
          show x.srcId = nid ∨ x.tgtId = nid
          exact hsound.2
    · exact PyDict.get_erase_self _ _
    · intro x hx
      show PyDict.get (PyDict.erase _ nid) x = _
      rw [PyDict.get_erase_ne _ _ _ (fun h => hx h.symm)]
      rw [fold_remove_nodes]
  · intro habs m
    have hfix : g.remove_edge eid = g := by
      apply remove_edge_absent
      unfold PyDict.contains at habs
      cases hx : PyDict.get g.edges eid with
      | none => rfl
      | some e => rw [hx] at habs; simp at habs
    exact Function.iterate_fixed hfix m

/-- Witness for **C6** at the explicit reachable state `gW3`, node `"A"`
(which has the incident edge `e1`) and the absent edge id `"nope"`. -/
theorem removal_cascade_and_idempotence_witness :
    GraphWF gW3 ∧
    ((PyDict.contains gW3.nodes "A" = false → gW3.remove_node "A" = .error .valueError) ∧
     (PyDict.contains gW3.nodes "A" = true →
       ∃ g', gW3.remove_node "A" = .ok g' ∧
         (∀ k e, PyDict.get g'.edges k = some e ↔
           (PyDict.get gW3.edges k = some e ∧ ¬(e.srcId = "A" ∨ e.tgtId = "A"))) ∧
         PyDict.get g'.nodes "A" = none ∧
         (∀ x, x ≠ "A" → PyDict.get g'.nodes x = PyDict.get gW3.nodes x)) ∧
     (PyDict.contains gW3.edges "nope" = false →
       ∀ m : Nat, (fun h => PyGraph.remove_edge h "nope")^[m] gW3 = gW3)) :=
  ⟨by decide, removal_cascade_and_idempotence gW3 "A" "nope" (by decide)⟩

/-! ### C10: neighbor deduplication -/

theorem nodeSetAdd_nodup (l : List PyNode) (n : PyNode)
    (h : (l.map PyNode.node_id).Nodup) : ((nodeSetAdd l n).map PyNode.node_id).Nodup := by
  unfold nodeSetAdd
  by_cases hc : l.any (fun m => m.node_id = n.node_id)
  · simpa [hc] using h
  · simp only [hc, if_false, Bool.false_eq_true, List.map_append]
    rw [List.nodup_append]
    refine ⟨h, by simp, ?_⟩
    intro x hx hx2
    simp only [List.map_cons, List.map_nil, List.mem_singleton] at hx2
    obtain ⟨m, hm, hmx⟩ := List.mem_map.mp hx
    apply hc
    rw [List.any_eq_true]
    exact ⟨m, hm, by simp [hmx, hx2]⟩

theorem mem_ids_nodeSetAdd (l : List PyNode) (n : PyNode) (a : String)
    (h : a ∈ l.map PyNode.node_id) : a ∈ (nodeSetAdd l n).map PyNode.node_id := by
  unfold nodeSetAdd
  by_cases hc : l.any (fun m => m.node_id = n.node_id)
  · simpa [hc] using h
  · simp only [hc, if_false, Bool.false_eq_true, List.map_append]
    exact List.mem_append_left _ h

theorem mem_ids_nodeSetAdd_self (l : List PyNode) (n : PyNode) :
    n.node_id ∈ (nodeSetAdd l n).map PyNode.node_id := by
  unfold nodeSetAdd
  by_cases hc : l.any (fun m => m.node_id = n.node_id)
  · obtain ⟨m, hm, hmn⟩ := List.any_eq_true.mp hc
    simp only [hc, if_true]
    simp only [decide_eq_true_eq] at hmn
    exact hmn ▸ List.mem_map_of_mem PyNode.node_id hm
  · simp only [hc, if_false, Bool.false_eq_true, List.map_append]
    exact List.mem_append_right _ (by simp)

theorem neighborsStep_nodup (n : PyNode) (acc : List PyNode) (e : PyEdge)
    (h : (acc.map PyNode.node_id).Nodup) :
    ((neighborsStep n acc e).map PyNode.node_id).Nodup := by
  unfold neighborsStep
  cases e.get_other_node n with
  | some other => exact nodeSetAdd_nodup acc other h
  | none =>
    by_cases hc : e.srcId = n.node_id ∧ e.tgtId = n.node_id
    · simp only [hc, if_true]
      exact nodeSetAdd_nodup acc n h
    · simpa [hc] using h

theorem mem_ids_neighborsStep (n : PyNode) (acc : List PyNode) (e : PyEdge) (a : String)
    (h : a ∈ acc.map PyNode.node_id) :
    a ∈ (neighborsStep n acc e).map PyNode.node_id := by
  unfold neighborsStep
  cases e.get_other_node n with
  | some other => exact mem_ids_nodeSetAdd acc other a h
  | none =>
    by_cases hc : e.srcId = n.node_id ∧ e.tgtId = n.node_id
    · simp only [hc, if_true]
      exact mem_ids_nodeSetAdd acc n a h
    · simpa [hc] using h

theorem neighbors_fold_nodup (n : PyNode) (es : List PyEdge) (acc : List PyNode)
    (h : (acc.map PyNode.node_id).Nodup) :
    ((es.foldl (neighborsStep n) acc).map PyNode.node_id).Nodup := by
  induction es generalizing acc with
  | nil => exact h
  | cons e rest ih => exact ih _ (neighborsStep_nodup n acc e h)

theorem neighbors_fold_mono (n : PyNode) (es : List PyEdge) (acc : List PyNode) (a : String)
    (h : a ∈ acc.map PyNode.node_id) :
    a ∈ (es.foldl (neighborsStep n) acc).map PyNode.node_id := by
  induction es generalizing acc with
  | nil => exact h
  | cons e rest ih => exact ih _ (mem_ids_neighborsStep n acc e a h)

theorem neighbors_fold_other (n : PyNode) (es : List PyEdge) (acc : List PyNode)
    (e : PyEdge) (t : PyNode) (hmem : e ∈ es) (hother : e.get_other_node n = some t) :
    t.node_id ∈ (es.foldl (neighborsStep n) acc).map PyNode.node_id := by
  induction es generalizing acc with
  | nil => simp at hmem
  | cons e' rest ih =>
    rw [List.foldl_cons]
    rcases List.mem_cons.mp hmem with h1 | h1
    · subst h1
      apply neighbors_fold_mono
      unfold neighborsStep
      rw [hother]
      exact mem_ids_nodeSetAdd_self acc t
    · exact ih _ h1

/-- **C10.**  `get_neighbors` lists each neighboring node id at most once,
regardless of parallel edges or direction, and when the node has a self-loop
the result contains the node itself (its own id). -/
theorem get_neighbors_spec (g : PyGraph) (n : PyNode) (hwf : GraphWF g)
    (hn : PyDict.contains g.nodes n.node_id = true) :
    ((g.get_neighbors n).map PyNode.node_id).Nodup ∧
    (∀ e, PyDict.get g.edges e.edge_id = some e →
      e.srcId = n.node_id → e.tgtId = n.node_id →
      ∃ m ∈ g.get_neighbors n, m.node_id = n.node_id) := by
  constructor
  · exact neighbors_fold_nodup n _ [] (by simp)
  · intro e hget hsrc htgt
    have hadjc : PyDict.contains g.adj n.node_id = true := by
      rw [PyDict.contains_iff_mem_keys]
      exact hwf.nodeKeysSub _ ((PyDict.contains_iff_mem_keys _ _).mp hn)
    obtain ⟨l, hl⟩ : ∃ l, PyDict.get g.adj n.node_id = some l := by
      unfold PyDict.contains at hadjc
      cases hx : PyDict.get g.adj n.node_id with
      | none => rw [hx] at hadjc; simp at hadjc
      | some l => exact ⟨l, rfl⟩
    have hel : e ∈ l := by
      apply hwf.adjComplete (e.edge_id, e) (PyDict.get_mem _ _ _ hget)
        (n.node_id, l) (PyDict.get_mem _ _ _ hl)
      show e.srcId = n.node_id ∨ e.tgtId = n.node_id
      exact Or.inl hsrc
    have hother : e.get_other_node n = some e.target_node := by
      unfold PyEdge.get_other_node
      rw [if_pos hsrc]
    have hin : e.target_node.node_id ∈ (g.get_neighbors n).map PyNode.node_id := by
      unfold PyGraph.get_neighbors
      rw [hl]
      exact neighbors_fold_other n l [] e e.target_node hel hother
    have htgt' : e.target_node.node_id = n.node_id := htgt
    rw [htgt'] at hin
    obtain ⟨m, hm, hmn⟩ := List.mem_map.mp hin
    exact ⟨m, hm, hmn⟩

/-- Witness data for **C10**: parallel edges in both directions, an
undirected duplicate, and a self-loop on `"A"`. -/
def gPar : PyGraph :=
  buildGraph "par" [tN "A", tN "B"]
    [tE "p1" "A" "B" .DIRECTED, tE "p2" "B" "A" .DIRECTED,
     tE "p3" "A" "B" .UNDIRECTED, tE "p4" "A" "A" .DIRECTED]

/-- Witness for **C10** on `gPar` at node `"A"`. -/
theorem get_neighbors_spec_witness :
    GraphWF gPar ∧ PyDict.contains gPar.nodes "A" = true ∧
    (((gPar.get_neighbors (tN "A")).map PyNode.node_id).Nodup ∧
     (∀ e, PyDict.get gPar.edges e.edge_id = some e →
       e.srcId = "A" → e.tgtId = "A" →
       ∃ m ∈ gPar.get_neighbors (tN "A"), m.node_id = "A")) :=
  ⟨by decide, by decide, get_neighbors_spec gPar (tN "A") (by decide) (by decide)⟩

/-! ### C7: type-detection order -/

/-- Counterexample to **C7** as stated: `"-5"` parses as an integer
(Python's `int("-5")` succeeds) yet `detect_type` classifies it FLOAT, not
INT — the code's integer test is `str.isdigit`, which rejects a sign, and
the float parse then succeeds. -/
theorem detect_type_signed_counterexample :
    pyIntParse "-5" = some (-5) ∧
    TypeValidator.detect_type (.str "-5") = ValueType.FLOAT ∧
    ¬ TypeValidator.detect_type (.str "-5") = ValueType.INT := by
  refine ⟨by decide, by decide, by decide⟩

/-- **C7 (amended).**  Detection order for typed values is boolean →
integer → float → date/datetime → string; for a string the code first tests
`str.isdigit` (so only unsigned digit strings are detected INT — not every
string that parses as an integer), then attempts a float parse, then an
ISO-date parse, and otherwise classifies the value as a string literal. -/
theorem detect_type_order :
    (∀ b, TypeValidator.detect_type (.bool b) = .BOOL) ∧
    (∀ n, TypeValidator.detect_type (.int n) = .INT) ∧
    (∀ q, TypeValidator.detect_type (.float q) = .FLOAT) ∧
    (∀ d, TypeValidator.detect_type (.date d) = .DATE) ∧
    (∀ dt, TypeValidator.detect_type (.datetime dt) = .DATE) ∧
    (∀ s, TypeValidator.detect_type (.str s) =
      if pyIsdigit s then .INT
      else if (pyFloatParse s).isSome then .FLOAT
      else if (pyFromIsoformat s).isSome then .DATE
      else .STR) :=
  ⟨fun _ => rfl, fun _ => rfl, fun _ => rfl, fun _ => rfl, fun _ => rfl, fun _ => rfl⟩

/-! ### C8: conversion/detection idempotence -/

/-- Counterexample to **C8** as stated: converting a `datetime` to its own
detected type (DATE) truncates it to its date, which is a different value
(Python's `date(2020,1,1) == datetime(2020,1,1,12,0)` is `False`). -/
theorem convert_detect_datetime_counterexample :
    TypeValidator.detect_type (.datetime ⟨⟨2020, 1, 1⟩, 12, 0, 0⟩) = .DATE ∧
    TypeValidator.convert_to_type (.datetime ⟨⟨2020, 1, 1⟩, 12, 0, 0⟩)
        (TypeValidator.detect_type (.datetime ⟨⟨2020, 1, 1⟩, 12, 0, 0⟩))
      = .ok (.date ⟨2020, 1, 1⟩) ∧
    ¬ (PyVal.date ⟨2020, 1, 1⟩ = PyVal.datetime ⟨⟨2020, 1, 1⟩, 12, 0, 0⟩) := by
  refine ⟨by decide, by decide, by decide⟩

/-- **C8 (amended).**  Converting a value to its own detected type is a
no-op for bool, int, float and `date` values, and for strings whose detected
type is STR; a `datetime` is truncated to its date (so the claim fails
there), and a string that parses as a number or date is converted to the
parsed value rather than kept. -/
theorem convert_detect_idempotent :
    (∀ b, TypeValidator.convert_to_type (.bool b)
      (TypeValidator.detect_type (.bool b)) = .ok (.bool b)) ∧
    (∀ n, TypeValidator.convert_to_type (.int n)
      (TypeValidator.detect_type (.int n)) = .ok (.int n)) ∧
    (∀ q, TypeValidator.convert_to_type (.float q)
      (TypeValidator.detect_type (.float q)) = .ok (.float q)) ∧
    (∀ d, TypeValidator.convert_to_type (.date d)
      (TypeValidator.detect_type (.date d)) = .ok (.date d)) ∧
    (∀ s, TypeValidator.detect_type (.str s) = .STR →
      TypeValidator.convert_to_type (.str s)
        (TypeValidator.detect_type (.str s)) = .ok (.str s)) := by
  refine ⟨fun _ => rfl, fun _ => rfl, fun _ => rfl, fun _ => rfl, ?_⟩
  intro s hs
  rw [hs]
  rfl

/-- Witness for **C8 (amended)**: the string conjunct at `"abc"`. -/
theorem convert_detect_idempotent_witness :
    TypeValidator.detect_type (.str "abc") = .STR ∧
    TypeValidator.convert_to_type (.str "abc")
      (TypeValidator.detect_type (.str "abc")) = .ok (.str "abc") :=
  ⟨by decide, convert_detect_idempotent.2.2.2.2 "abc" (by decide)⟩

/-! ### C9: null-valued attributes in value-mode search -/

def nNull : PyNode :=
  ⟨0, "n1", [("name", PyVal.none), ("NAME", PyVal.str "alice")],
   [("name", .STR), ("NAME", .STR)]⟩

def gNullName : PyGraph := buildGraph "q" [nNull] []

/-- Counterexample to **C9** as stated: the node's attribute `"name"` is
present and null, yet the node matches the value-mode search
`"name=alice"` — the scan continues past the null pair and matches the
case-variant key `"NAME"` (the dict may hold both).  (The node also matches
the bare-token name-mode search, as the claim says.) -/
theorem search_null_value_counterexample :
    PyDict.get nNull.attributes "name" = some PyVal.none ∧
    "n1" ∈ searchFindMatching gNullName "name=alice" ∧
    "n1" ∈ searchFindMatching gNullName "name" := by
  refine ⟨by decide, by decide, by decide⟩

theorem mem_strSetAdd (acc : List String) (s a : String) :
    a ∈ strSetAdd acc s ↔ a ∈ acc ∨ a = s := by
  unfold strSetAdd
  by_cases hc : s ∈ acc
  · simp only [hc, if_true]
    constructor
    · exact Or.inl
    · rintro (h | h)
      · exact h
      · exact h ▸ hc
  · simp [hc]

theorem mem_fold_strSetAdd (P : PyNode → Bool) (l : List PyNode)
    (acc : List String) (nid : String) :
    nid ∈ l.foldl (fun acc n => if P n then strSetAdd acc n.node_id else acc) acc ↔
      nid ∈ acc ∨ ∃ n ∈ l, P n = true ∧ n.node_id = nid := by
  induction l generalizing acc with
  | nil => simp
  | cons n rest ih =>
    rw [List.foldl_cons]
    rw [ih]
    by_cases hp : P n
    · simp only [hp, if_true, mem_strSetAdd]
      constructor
      · rintro ((h | h) | h)
        · exact Or.inl h
        · exact Or.inr ⟨n, List.mem_cons_self _ _, hp, h.symm⟩
        · obtain ⟨m, hm, hpm, hmn⟩ := h
          exact Or.inr ⟨m, List.mem_cons_of_mem _ hm, hpm, hmn⟩
      · rintro (h | ⟨m, hm, hpm, hmn⟩)
        · exact Or.inl (Or.inl h)
        · rcases List.mem_cons.mp hm with h1 | h1
          · exact Or.inl (Or.inr (h1 ▸ hmn).symm)
          · exact Or.inr ⟨m, h1, hpm, hmn⟩
    · simp only [hp, if_false, Bool.false_eq_true]
      constructor
      · rintro (h | ⟨m, hm, hpm, hmn⟩)
        · exact Or.inl h
        · exact Or.inr ⟨m, List.mem_cons_of_mem _ hm, hpm, hmn⟩
      · rintro (h | ⟨m, hm, hpm, hmn⟩)
        · exact Or.inl h
        · rcases List.mem_cons.mp hm with h1 | h1
          · rw [h1] at hpm
            rw [hpm] at hp
            exact absurd rfl hp
          · exact Or.inr ⟨m, h1, hpm, hmn⟩

/-- **C9 (amended).**  In value-mode search a node matches iff it has some
attribute pair whose name equals the queried name case-insensitively and
whose value is non-null with a string rendering containing the query value —
so a null value never itself produces a match (a node all of whose
query-named attributes are null never matches), while name-mode matches any
node having an attribute whose name merely contains the token. -/
theorem search_null_value_amended :
    (∀ (g : PyGraph) (a v nid : String),
      nid ∈ findByValue g a v ↔
        ∃ n ∈ PyDict.values g.nodes, n.node_id = nid ∧
          ∃ p ∈ n.attributes, pyToLower (p : String × PyVal).1 = pyToLower a ∧
            ¬ p.2 = PyVal.none ∧
            pyInStr (pyToLower v) (pyToLower (pyStrRender p.2)) = true) ∧
    (∀ (g : PyGraph) (a nid : String),
      nid ∈ findByName g a ↔
        ∃ n ∈ PyDict.values g.nodes, n.node_id = nid ∧
          ∃ key ∈ PyDict.keys n.attributes, pyInStr (pyToLower a) (pyToLower key) = true) := by
  constructor
  · intro g a v nid
    unfold findByValue PyGraph.get_all_nodes
    rw [mem_fold_strSetAdd (fun n => findByValueNode n (pyToLower a) (pyToLower v))]
    simp only [List.mem_singleton, false_or, List.not_mem_nil, false_or]
    constructor
    · rintro ⟨n, hn, hP, hid⟩
      refine ⟨n, hn, hid, ?_⟩
      unfold findByValueNode at hP
      obtain ⟨p, hp, hdec⟩ := List.any_eq_true.mp hP
      rw [decide_eq_true_eq] at hdec
      exact ⟨p, hp, hdec.1, hdec.2.1, hdec.2.2⟩
    · rintro ⟨n, hn, hid, p, hp, h1, h2, h3⟩
      refine ⟨n, hn, ?_, hid⟩
      unfold findByValueNode
      rw [List.any_eq_true]
      exact ⟨p, hp, by rw [decide_eq_true_eq]; exact ⟨h1, h2, h3⟩⟩
  · intro g a nid
    unfold findByName PyGraph.get_all_nodes
    rw [mem_fold_strSetAdd (fun n => (PyDict.keys n.attributes).any
      (fun key => pyInStr (pyToLower a) (pyToLower key)))]
    simp only [List.not_mem_nil, false_or]
    constructor
    · rintro ⟨n, hn, hP, hid⟩
      obtain ⟨key, hkey, hdec⟩ := List.any_eq_true.mp hP
      exact ⟨n, hn, hid, key, hkey, hdec⟩
    · rintro ⟨n, hn, hid, key, hkey, hin⟩
      refine ⟨n, hn, ?_, hid⟩
      rw [List.any_eq_true]
      exact ⟨key, hkey, hin⟩

/-! ### C4: workspace state after a failed query -/

def wsEmpty : Workspace := ⟨PyGraph.init "g", PyGraph.init "g", [], 50⟩

/-- Counterexample to **C4** as stated: a failing `apply_filter` (here a
parse error) leaves the current graph alone but grows the history stack from
depth 0 to depth 1 — the snapshot is pushed before validation. -/
theorem workspace_failed_query_counterexample :
    (wsEmpty.apply_filter "bad").2 = some PyErr.filterParseError ∧
    (wsEmpty.apply_filter "bad").1.history.length = 1 ∧
    wsEmpty.history.length = 0 := by
  refine ⟨by decide, by decide, by decide⟩

/-- **C4 (amended).**  When `apply_filter` or `apply_search` fails, the
current graph and the original graph are unchanged and the error propagates,
but the history stack has had a snapshot of the pre-call current graph
pushed (dropping the oldest entry when at capacity); nothing else of the
workspace is mutated. -/
theorem workspace_failed_query_state (w : Workspace) (q : String) (e : PyErr) :
    ((w.apply_filter q).2 = some e →
      (w.apply_filter q).1.currentGraph = w.currentGraph ∧
      (w.apply_filter q).1.originalGraph = w.originalGraph ∧
      (w.apply_filter q).1.maxHistory = w.maxHistory ∧
      (w.apply_filter q).1.history =
        (if w.history.length ≥ w.maxHistory then w.history.drop 1 else w.history)
          ++ [w.currentGraph]) ∧
    ((w.apply_search q).2 = some e →
      (w.apply_search q).1.currentGraph = w.currentGraph ∧
      (w.apply_search q).1.originalGraph = w.originalGraph ∧
      (w.apply_search q).1.maxHistory = w.maxHistory ∧
      (w.apply_search q).1.history =
        (if w.history.length ≥ w.maxHistory then w.history.drop 1 else w.history)
          ++ [w.currentGraph]) := by
  constructor
  · intro hfail
    unfold Workspace.apply_filter at hfail ⊢
    cases hex : FilterService.execute w.pushSnapshot.currentGraph q with
    | ok g' => rw [hex] at hfail; simp at hfail
    | error err => exact ⟨rfl, rfl, rfl, rfl⟩
  · intro hfail
    unfold Workspace.apply_search at hfail ⊢
    cases hex : SearchService.execute w.pushSnapshot.currentGraph q with
    | ok g' => rw [hex] at hfail; simp at hfail
    | error err => exact ⟨rfl, rfl, rfl, rfl⟩

/-- Witness for **C4 (amended)**: a failed filter (`"bad"`) and a failed
search (`""`) on the empty workspace. -/
theorem workspace_failed_query_state_witness :
    ((wsEmpty.apply_filter "bad").2 = some PyErr.filterParseError ∧
     ((wsEmpty.apply_filter "bad").1.currentGraph = wsEmpty.currentGraph ∧
      (wsEmpty.apply_filter "bad").1.originalGraph = wsEmpty.originalGraph ∧
      (wsEmpty.apply_filter "bad").1.maxHistory = wsEmpty.maxHistory ∧
      (wsEmpty.apply_filter "bad").1.history =
        (if wsEmpty.history.length ≥ wsEmpty.maxHistory then wsEmpty.history.drop 1
         else wsEmpty.history) ++ [wsEmpty.currentGraph])) ∧
    ((wsEmpty.apply_search "").2 = some PyErr.searchParseError ∧
     ((wsEmpty.apply_search "").1.currentGraph = wsEmpty.currentGraph ∧
      (wsEmpty.apply_search "").1.originalGraph = wsEmpty.originalGraph ∧
      (wsEmpty.apply_search "").1.maxHistory = wsEmpty.maxHistory ∧
      (wsEmpty.apply_search "").1.history =
        (if wsEmpty.history.length ≥ wsEmpty.maxHistory then wsEmpty.history.drop 1
         else wsEmpty.history) ++ [wsEmpty.currentGraph])) :=
  ⟨⟨by decide,
    (workspace_failed_query_state wsEmpty "bad" .filterParseError).1 (by decide)⟩,
   ⟨by decide,
    (workspace_failed_query_state wsEmpty "" .searchParseError).2 (by decide)⟩⟩

/-! ### C3: filter fail-fast contract -/

theorem isWordChar_not_pySpace (c : Char) (hw : isWordChar c = true) :
    isPySpace c = false := by
  have h1 : ¬ c = ' ' := fun h => absurd (h ▸ hw) (by decide)
  have h2 : ¬ c = '\t' := fun h => absurd (h ▸ hw) (by decide)
  have h3 : ¬ c = '\n' := fun h => absurd (h ▸ hw) (by decide)
  have h4 : ¬ c = '\r' := fun h => absurd (h ▸ hw) (by decide)
  have h5 : ¬ c = '\x0b' := fun h => absurd (h ▸ hw) (by decide)
  have h6 : ¬ c = '\x0c' := fun h => absurd (h ▸ hw) (by decide)
  simp [isPySpace, h1, h2, h3, h4, h5, h6]

theorem stripList_ne_nil (l : List Char) (c : Char) (hc : c ∈ l)
    (hns : isPySpace c = false) : stripList l ≠ [] := by
  intro h
  unfold stripList at h
  have h1 : (l.dropWhile isPySpace).reverse.dropWhile isPySpace = [] := by
    have h2 := congrArg List.reverse h
    simpa using h2
  rw [List.dropWhile_eq_nil_iff] at h1
  have hc1 : c ∈ l.dropWhile isPySpace := by
    have hsplit := List.takeWhile_append_dropWhile (p := isPySpace) (l := l)
    rw [← hsplit] at hc
    rcases List.mem_append.mp hc with h2 | h2
    · have h3 := List.mem_takeWhile_imp h2
      rw [hns] at h3
      cases h3
    · exact h2
  have h4 : isPySpace c = true := h1 c (List.mem_reverse.mpr hc1)
  rw [hns] at h4
  cases h4

theorem pyStrip_ne_empty (q : String) (c : Char) (hc : c ∈ q.toList)
    (hns : isPySpace c = false) : ¬ pyStrip q = "" := by
  intro h
  have h1 : stripList q.toList = [] := congrArg String.data h
  exact stripList_ne_nil q.toList c hc hns h1

theorem filterPatternMatch_strip_ne_empty (q a op v : String)
    (h : filterPatternMatch q = some (a, op, v)) : ¬ pyStrip q = "" := by
  unfold filterPatternMatch at h
  by_cases hw : ((q.toList.dropWhile isPySpace).takeWhile isWordChar).isEmpty
  · rw [if_pos hw] at h
    cases h
  · cases hwl : (q.toList.dropWhile isPySpace).takeWhile isWordChar with
    | nil => rw [hwl] at hw; exact absurd rfl hw
    | cons c0 rest =>
      have hc0tw : c0 ∈ (q.toList.dropWhile isPySpace).takeWhile isWordChar := by
        rw [hwl]
        exact List.mem_cons_self _ _
      have hword : isWordChar c0 = true := List.mem_takeWhile_imp hc0tw
      have hc0cs : c0 ∈ q.toList.dropWhile isPySpace :=
        List.Sublist.subset (List.takeWhile_sublist _) hc0tw
      have hc0 : c0 ∈ q.toList :=
        List.Sublist.subset (List.dropWhile_sublist _) hc0cs
      exact pyStrip_ne_empty q c0 hc0 (isWordChar_not_pySpace c0 hword)

theorem evaluateNode_error (n : PyNode) (a op v : String) (err : PyErr)
    (h : evaluateNode n a op v = .error err) : err = .filterTypeError := by
  unfold evaluateNode at h
  by_cases hc : PyDict.contains n.attributes a
  · rw [if_neg (by rw [hc]; exact fun hh => hh rfl)] at h
    revert h
    cases TypeValidator.convert_to_opt_type (.str v) (PyDict.get n.attribute_types a) with
    | error e =>
      intro h
      have h' : Except.error (α := Bool) PyErr.filterTypeError = Except.error err := h
      exact ((Except.error.injEq _ _).mp h').symm
    | ok target =>
      show (match TypeValidator.compare ((PyDict.get n.attributes a).getD .none) target op with
            | Except.error _ => Except.error PyErr.filterTypeError
            | Except.ok b => Except.ok b) = Except.error err → err = PyErr.filterTypeError
      cases TypeValidator.compare ((PyDict.get n.attributes a).getD .none) target op with
      | error e =>
        intro h
        have h' : Except.error (α := Bool) PyErr.filterTypeError = Except.error err := h
        exact ((Except.error.injEq _ _).mp h').symm
      | ok b =>
        intro h
        have h' : Except.ok (ε := PyErr) b = Except.error err := h
        cases h'
  · rw [if_pos (by rw [Bool.not_eq_true] at hc; rw [hc]; exact Bool.false_ne_true)] at h
    cases h

theorem collectMatches_error (a op v : String) (l : List PyNode) (acc : List String)
    (hex : ∃ n ∈ l, ∃ err, evaluateNode n a op v = .error err) :
    collectMatches a op v l acc = .error .filterTypeError := by
  induction l generalizing acc with
  | nil =>
    obtain ⟨n, hn, _⟩ := hex
    simp at hn
  | cons n0 rest ih =>
    obtain ⟨n, hn, err, herr⟩ := hex
    show (match evaluateNode n0 a op v with
      | Except.error e => Except.error e
      | Except.ok true => collectMatches a op v rest (strSetAdd acc n0.node_id)
      | Except.ok false => collectMatches a op v rest acc)
        = Except.error PyErr.filterTypeError
    rcases List.mem_cons.mp hn with h1 | h1
    · subst h1
      rw [herr, evaluateNode_error n a op v err herr]
    · cases hev : evaluateNode n0 a op v with
      | error e =>
        rw [evaluateNode_error n0 a op v e hev]
      | ok b =>
        cases b
        · exact ih acc ⟨n, h1, err, herr⟩
        · exact ih (strSetAdd acc n0.node_id) ⟨n, h1, err, herr⟩

/-- **C3.**  Filter fail-fast contract: for a syntactically valid filter
query, a node lacking the named attribute never matches and never raises;
for a node that has it, the query literal is converted to the node's stored
attribute type and compared (this exact pipeline); and if any node's
conversion or comparison fails, the whole filter operation raises
`FilterTypeError` — no subgraph is returned and no node is skipped. -/
theorem filter_fail_fast (g : PyGraph) (q a op vraw : String)
    (hq : filterPatternMatch q = some (a, op, vraw)) :
    (∀ n ∈ PyDict.values g.nodes, PyDict.contains n.attributes a = false →
      evaluateNode n a op (pyStrip vraw) = .ok false) ∧
    (∀ n ∈ PyDict.values g.nodes, PyDict.contains n.attributes a = true →
      evaluateNode n a op (pyStrip vraw) =
        (match TypeValidator.convert_to_opt_type (.str (pyStrip vraw))
            (PyDict.get n.attribute_types a) with
         | .error _ => .error .filterTypeError
         | .ok target =>
           match TypeValidator.compare ((PyDict.get n.attributes a).getD .none) target op with
           | .error _ => .error .filterTypeError
           | .ok b => .ok b)) ∧
    ((∃ n ∈ PyDict.values g.nodes, ∃ err,
        evaluateNode n a op (pyStrip vraw) = .error err) →
      FilterService.execute g q = .error .filterTypeError) := by
  refine ⟨?_, ?_, ?_⟩
  · intro n _ hcont
    unfold evaluateNode
    rw [if_pos (by rw [hcont]; exact Bool.false_ne_true)]
  · intro n _ hcont
    unfold evaluateNode
    rw [if_neg (by rw [hcont]; exact fun hh => hh rfl)]
  · intro hex
    have hcol := collectMatches_error a op (pyStrip vraw) (PyDict.values g.nodes) [] hex
    unfold FilterService.execute
    rw [if_neg (filterPatternMatch_strip_ne_empty q a op vraw hq)]
    rw [hq]
    simp only [Option.isNone_some, Bool.false_eq_true, if_false]
    have hfind : filterFindMatching g q = .error .filterTypeError := by
      unfold filterFindMatching
      rw [hq]
      exact hcol
    rw [hfind]

/-- Witness data for **C3**: two INT-typed `Age` nodes and one node lacking
the attribute. -/
def nAge1 : PyNode := ⟨0, "n1", [("Age", .int 25)], [("Age", .INT)]⟩

def nAge2 : PyNode := ⟨1, "n2", [("Age", .int 35)], [("Age", .INT)]⟩

def nNamed : PyNode := ⟨2, "n3", [("Name", .str "x")], [("Name", .STR)]⟩

def gFil : PyGraph := buildGraph "f" [nAge1, nAge2, nNamed] []

/-- Witness for **C3** at the concrete query `"Age >= 30"` on `gFil`. -/
theorem filter_fail_fast_witness :
    filterPatternMatch "Age >= 30" = some ("Age", ">=", " 30") ∧
    ((∀ n ∈ PyDict.values gFil.nodes, PyDict.contains n.attributes "Age" = false →
       evaluateNode n "Age" ">=" (pyStrip " 30") = .ok false) ∧
     (∀ n ∈ PyDict.values gFil.nodes, PyDict.contains n.attributes "Age" = true →
       evaluateNode n "Age" ">=" (pyStrip " 30") =
         (match TypeValidator.convert_to_opt_type (.str (pyStrip " 30"))
             (PyDict.get n.attribute_types "Age") with
          | .error _ => .error .filterTypeError
          | .ok target =>
            match TypeValidator.compare ((PyDict.get n.attributes "Age").getD .none)
                target ">=" with
            | .error _ => .error .filterTypeError
            | .ok b => .ok b)) ∧
     ((∃ n ∈ PyDict.values gFil.nodes, ∃ err,
         evaluateNode n "Age" ">=" (pyStrip " 30") = .error err) →
       FilterService.execute gFil "Age >= 30" = .error .filterTypeError)) :=
  ⟨by decide, filter_fail_fast gFil "Age >= 30" "Age" ">=" " 30" (by decide)⟩

/-! ### C5: subgraph extraction -/

/-- The value actually stored by `set_attribute` for an input value:
unchanged `None`, otherwise the value converted to its own detected type
(the conversion cannot fail, so the fallback is unreachable). -/
def canonVal (v : PyVal) : PyVal :=
  match v with
  | .none => .none
  | v =>
    match TypeValidator.validate_and_convert v (TypeValidator.detect_type v) with
    | .ok w => w
    | .error _ => v

theorem setAttribute_fst (attrs : List (String × PyVal)) (types : List (String × ValueType))
    (k : String) (v : PyVal) :
    (setAttribute attrs types k v).1 = PyDict.insert attrs k (canonVal v) := by
  cases v <;> rfl

theorem attrs_rebuild (l : List (String × PyVal)) :
    ∀ acc : List (String × PyVal) × List (String × ValueType),
      (PyDict.keys l).Nodup →
      (∀ k, k ∈ PyDict.keys acc.1 → k ∉ PyDict.keys l) →
      (∀ p ∈ l, canonVal (p : String × PyVal).2 = p.2) →
      (l.foldl (fun acc p => setAttribute acc.1 acc.2 p.1 p.2) acc).1 = acc.1 ++ l := by
  induction l with
  | nil =>
    intro acc _ _ _
    simp
  | cons p rest ih =>
    intro acc hnd hdisj hfix
    rw [List.foldl_cons]
    have hkeyhead : p.1 ∈ PyDict.keys (p :: rest) := by
      unfold PyDict.keys
      exact List.mem_map_of_mem (fun x : String × PyVal => x.1) (List.mem_cons_self p rest)
    have hnotin : PyDict.contains acc.1 p.1 = false := by
      cases hcc : PyDict.contains acc.1 p.1
      · rfl
      · exact absurd hkeyhead (hdisj p.1 ((PyDict.contains_iff_mem_keys _ _).mp hcc))
    have hfst : (setAttribute acc.1 acc.2 p.1 p.2).1 = acc.1 ++ [p] := by
      rw [setAttribute_fst]
      unfold PyDict.insert
      rw [hnotin]
      simp only [Bool.false_eq_true, if_false]
      rw [hfix p (List.mem_cons_self _ _)]
    have hnd' : (PyDict.keys rest).Nodup := by
      unfold PyDict.keys at hnd ⊢
      rw [List.map_cons, List.nodup_cons] at hnd
      exact hnd.2
    have hheadnotin : p.1 ∉ PyDict.keys rest := by
      unfold PyDict.keys at hnd ⊢
      rw [List.map_cons, List.nodup_cons] at hnd
      exact hnd.1
    have hdisj' : ∀ k, k ∈ PyDict.keys (setAttribute acc.1 acc.2 p.1 p.2).1 →
        k ∉ PyDict.keys rest := by
      intro k hk
      rw [hfst] at hk
      unfold PyDict.keys at hk
      rw [List.map_append] at hk
      rcases List.mem_append.mp hk with h1 | h1
      · intro hcontr
        exact (hdisj k h1) (by
          unfold PyDict.keys
          rw [List.map_cons]
          exact List.mem_cons_of_mem _ hcontr)
      · simp only [List.map_cons, List.map_nil, List.mem_singleton] at h1
        rw [h1]
        exact hheadnotin
    have hfix' : ∀ q ∈ rest, canonVal (q : String × PyVal).2 = q.2 :=
      fun q hq => hfix q (List.mem_cons_of_mem _ hq)
    rw [ih _ hnd' hdisj' hfix', hfst]
    simp

/-- `Edge.__init__` rebuilds the attribute dictionary; on canonical input
(every stored value a `set_attribute` fixpoint, keys unique) the values are
preserved exactly. -/
theorem mkEdge_spec (eid : String) (s t : PyNode) (dir : EdgeDirection)
    (attrs : List (String × PyVal))
    (hnd : (PyDict.keys attrs).Nodup)
    (hfix : ∀ p ∈ attrs, canonVal (p : String × PyVal).2 = p.2) :
    (mkEdge eid s t dir attrs).edge_id = eid ∧
    (mkEdge eid s t dir attrs).source_node = s ∧
    (mkEdge eid s t dir attrs).target_node = t ∧
    (mkEdge eid s t dir attrs).direction = dir ∧
    (mkEdge eid s t dir attrs).attributes = attrs := by
  refine ⟨rfl, rfl, rfl, rfl, ?_⟩
  show (attrs.foldl (fun acc p => setAttribute acc.1 acc.2 p.1 p.2)
    (([] : List (String × PyVal)), ([] : List (String × ValueType)))).1 = attrs
  rw [attrs_rebuild attrs ([], []) hnd (by intro k hk; simp [PyDict.keys] at hk) hfix]
  simp

theorem le_foldr_max (l : List Nat) (x : Nat) (hx : x ∈ l) :
    x ≤ l.foldr max 0 := by
  induction l with
  | nil => simp at hx
  | cons y rest ih =>
    rw [List.foldr_cons]
    rcases List.mem_cons.mp hx with h | h
    · rw [h]
      exact le_max_left _ _
    · exact le_trans (ih h) (le_max_right _ _)

theorem touchNode_fresh (a : Nat) (k : String) (v : PyVal) (n : PyNode)
    (h : ¬ n.addr = a) : touchNode a k v n = n := by
  unfold touchNode
  rw [if_neg h]

theorem heapSetAttr_fresh (g : PyGraph) (a : Nat) (k : String) (v : PyVal)
    (hfresh : ∀ x ∈ collectAddrs g, ¬ x = a) : heapSetAttr a k v g = g := by
  have hn : ∀ p ∈ g.nodes, (p : String × PyNode).2.addr ∈ collectAddrs g := by
    intro p hp
    unfold collectAddrs
    exact List.mem_append_left _ (List.mem_append_left _ (List.mem_append_left _
      (List.mem_append_left _
        (List.mem_map_of_mem _ (List.mem_map_of_mem (·.2) hp)))))
  have he1 : ∀ p ∈ g.edges, (p : String × PyEdge).2.source_node.addr ∈ collectAddrs g := by
    intro p hp
    unfold collectAddrs
    exact List.mem_append_left _ (List.mem_append_left _ (List.mem_append_left _
      (List.mem_append_right _
        (List.mem_map_of_mem _ (List.mem_map_of_mem (·.2) hp)))))
  have he2 : ∀ p ∈ g.edges, (p : String × PyEdge).2.target_node.addr ∈ collectAddrs g := by
    intro p hp
    unfold collectAddrs
    exact List.mem_append_left _ (List.mem_append_left _ (List.mem_append_right _
      (List.mem_map_of_mem _ (List.mem_map_of_mem (·.2) hp))))
  have ha1 : ∀ q ∈ g.adj, ∀ e ∈ (q : String × List PyEdge).2,
      e.source_node.addr ∈ collectAddrs g := by
    intro q hq e he
    unfold collectAddrs
    refine List.mem_append_left _ (List.mem_append_right _ ?_)
    exact List.mem_map_of_mem _ (List.mem_flatten.mpr
      ⟨q.2, List.mem_map_of_mem (·.2) hq, he⟩)
  have ha2 : ∀ q ∈ g.adj, ∀ e ∈ (q : String × List PyEdge).2,
      e.target_node.addr ∈ collectAddrs g := by
    intro q hq e he
    unfold collectAddrs
    refine List.mem_append_right _ ?_
    exact List.mem_map_of_mem _ (List.mem_flatten.mpr
      ⟨q.2, List.mem_map_of_mem (·.2) hq, he⟩)
  unfold heapSetAttr
  have hnodes : g.nodes.map (fun p => (p.1, touchNode a k v p.2)) = g.nodes := by
    conv_rhs => rw [← List.map_id g.nodes]
    apply List.map_congr_left
    intro p hp
    rw [touchNode_fresh a k v p.2 (hfresh _ (hn p hp))]
    rfl
  have hedges : g.edges.map (fun p => (p.1, edgeTouchNode a k v p.2)) = g.edges := by
    conv_rhs => rw [← List.map_id g.edges]
    apply List.map_congr_left
    intro p hp
    unfold edgeTouchNode
    rw [touchNode_fresh a k v p.2.source_node (hfresh _ (he1 p hp))]
    rw [touchNode_fresh a k v p.2.target_node (hfresh _ (he2 p hp))]
    rfl
  have hadj : g.adj.map (fun p => (p.1, p.2.map (edgeTouchNode a k v))) = g.adj := by
    conv_rhs => rw [← List.map_id g.adj]
    apply List.map_congr_left
    intro q hq
    have hl : q.2.map (edgeTouchNode a k v) = q.2 := by
      conv_rhs => rw [← List.map_id q.2]
      apply List.map_congr_left
      intro e he
      unfold edgeTouchNode
      rw [touchNode_fresh a k v e.source_node (hfresh _ (ha1 q hq e he))]
      rw [touchNode_fresh a k v e.target_node (hfresh _ (ha2 q hq e he))]
      rfl
    rw [hl]
    rfl
  rw [hnodes, hedges, hadj]

/-- Behaviour of the node-copy loop of `get_subgraph_by_nodes`: it succeeds,
keeps the edge table, copies exactly the requested node ids that exist in
`g` (with fresh object identities at or above the starting counter), and
adds nothing else. -/
theorem addNodeCopies_spec (g : PyGraph)
    (hkeyed : ∀ p ∈ g.nodes, (p : String × PyNode).2.node_id = p.1) :
    ∀ (S : List String) (sub : PyGraph) (c : Nat),
      S.Nodup →
      (∀ p ∈ sub.nodes, (p : String × PyNode).1 ∉ S) →
      ∃ sub' c', addNodeCopies g S sub c = .ok (sub', c') ∧
        c ≤ c' ∧
        sub'.edges = sub.edges ∧
        sub'.graph_id = sub.graph_id ∧
        (∀ nid, nid ∉ S → PyDict.get sub'.nodes nid = PyDict.get sub.nodes nid) ∧
        (∀ nid, nid ∈ S → PyDict.get g.nodes nid = none →
          PyDict.get sub'.nodes nid = PyDict.get sub.nodes nid) ∧
        (∀ nid n, nid ∈ S → PyDict.get g.nodes nid = some n →
          ∃ a, c ≤ a ∧ PyDict.get sub'.nodes nid = some { n with addr := a }) ∧
        (∀ p ∈ sub'.nodes, p ∈ sub.nodes ∨
          (c ≤ (p : String × PyNode).2.addr ∧ p.2.node_id = p.1)) := by
  intro S
  induction S with
  | nil =>
    intro sub c _ _
    refine ⟨sub, c, rfl, le_refl c, rfl, rfl, fun _ _ => rfl, ?_, ?_, ?_⟩
    · intro nid h
      simp at h
    · intro nid n h
      simp at h
    · intro p hp
      exact Or.inl hp
  | cons nid0 rest ih =>
    intro sub c hnd hdisj
    have hnd' : rest.Nodup := (List.nodup_cons.mp hnd).2
    have hnid0 : nid0 ∉ rest := (List.nodup_cons.mp hnd).1
    cases hga : PyDict.get g.nodes nid0 with
    | none =>
      obtain ⟨sub', c', hrun, hle, hedges, hgid, hnotin, hnone, hsome, hmem⟩ :=
        ih sub c hnd' (fun p hp => fun hc => hdisj p hp (List.mem_cons_of_mem _ hc))
      refine ⟨sub', c', ?_, hle, hedges, hgid, ?_, ?_, ?_, ?_⟩
      · show addNodeCopies g (nid0 :: rest) sub c = .ok (sub', c')
        unfold addNodeCopies
        rw [hga]
        exact hrun
      · intro nid h
        exact hnotin nid (fun hc => h (List.mem_cons_of_mem _ hc))
      · intro nid hin hg0
        rcases List.mem_cons.mp hin with h1 | h1
        · subst h1
          exact hnotin nid hnid0
        · exact hnone nid h1 hg0
      · intro nid n hin hg0
        rcases List.mem_cons.mp hin with h1 | h1
        · subst h1
          rw [hga] at hg0
          cases hg0
        · exact hsome nid n h1 hg0
      · intro p hp
        rcases hmem p hp with h1 | h1
        · exact Or.inl h1
        · exact Or.inr h1
    | some n0 =>
      have hkey : n0.node_id = nid0 := hkeyed (nid0, n0) (PyDict.get_mem _ _ _ hga)
      have hnc : PyDict.contains sub.nodes nid0 = false := by
        cases hc : PyDict.contains sub.nodes nid0
        · rfl
        · exfalso
          obtain ⟨m, hm⟩ : ∃ m, PyDict.get sub.nodes nid0 = some m := by
            unfold PyDict.contains at hc
            cases hx : PyDict.get sub.nodes nid0 with
            | none => rw [hx] at hc; simp at hc
            | some m => exact ⟨m, rfl⟩
          exact hdisj (nid0, m) (PyDict.get_mem _ _ _ hm) (List.mem_cons_self _ _)
      have hadd : sub.add_node (deepcopyNode n0 c) =
          .ok { sub with
                nodes := PyDict.insert sub.nodes nid0 (deepcopyNode n0 c),
                adj := PyDict.insert sub.adj nid0 [] } := by
        unfold PyGraph.add_node deepcopyNode
        simp only [hkey]
        rw [if_neg (by rw [hnc]; exact Bool.false_ne_true)]
      set sub1 : PyGraph :=
        { sub with
          nodes := PyDict.insert sub.nodes nid0 (deepcopyNode n0 c),
          adj := PyDict.insert sub.adj nid0 [] } with hsub1
      have hdisj1 : ∀ p ∈ sub1.nodes, (p : String × PyNode).1 ∉ rest := by
        intro p hp
        rcases (PyDict.mem_insert_of_not_contains _ _ _ hnc p).mp hp with h1 | h1
        · exact fun hc => hdisj p h1 (List.mem_cons_of_mem _ hc)
        · rw [h1]
          exact hnid0
      obtain ⟨sub', c', hrun, hle, hedges, hgid, hnotin, hnone, hsome, hmem⟩ :=
        ih sub1 (c + 1) hnd' hdisj1
      refine ⟨sub', c', ?_, ?_, ?_, ?_, ?_, ?_, ?_, ?_⟩
      · show addNodeCopies g (nid0 :: rest) sub c = .ok (sub', c')
        unfold addNodeCopies
        rw [hga]
        show (match sub.add_node (deepcopyNode n0 c) with
          | Except.error err => Except.error err
          | Except.ok s => addNodeCopies g rest s (c + 1)) = Except.ok (sub', c')
        rw [hadd]
        exact hrun
      · exact le_trans (Nat.le_succ c) hle
      · exact hedges
      · exact hgid
      · intro nid h
        have h1 : nid ∉ rest := fun hc => h (List.mem_cons_of_mem _ hc)
        have h2 : nid0 ≠ nid := fun hc => h (hc ▸ List.mem_cons_self _ _)
        rw [hnotin nid h1]
        show PyDict.get (PyDict.insert sub.nodes nid0 (deepcopyNode n0 c)) nid = _
        rw [PyDict.get_insert_ne _ _ _ _ h2]
      · intro nid hin hg0
        rcases List.mem_cons.mp hin with h1 | h1
        · subst h1
          rw [hga] at hg0
          cases hg0
        · have h2 : nid0 ≠ nid := fun hc => hnid0 (hc ▸ h1)
          rw [hnone nid h1 hg0]
          show PyDict.get (PyDict.insert sub.nodes nid0 (deepcopyNode n0 c)) nid = _
          rw [PyDict.get_insert_ne _ _ _ _ h2]
      · intro nid n hin hg0
        rcases List.mem_cons.mp hin with h1 | h1
        · subst h1
          rw [hga] at hg0
          have hn0 : n0 = n := (Option.some.injEq _ _).mp hg0
          subst hn0
          refine ⟨c, le_refl c, ?_⟩
          rw [hnotin nid hnid0]
          show PyDict.get (PyDict.insert sub.nodes nid (deepcopyNode n0 c)) nid = _
          rw [PyDict.get_insert_self]
          rfl
        · obtain ⟨a, ha1, ha2⟩ := hsome nid n h1 hg0
          exact ⟨a, le_trans (Nat.le_succ c) ha1, ha2⟩
      · intro p hp
        rcases hmem p hp with h1 | h1
        · rcases (PyDict.mem_insert_of_not_contains _ _ _ hnc p).mp h1 with h2 | h2
          · exact Or.inl h2
          · refine Or.inr ⟨?_, ?_⟩
            · rw [h2]
              exact le_refl c
            · rw [h2]
              exact hkey
        · exact Or.inr ⟨le_trans (Nat.le_succ c) h1.1, h1.2⟩

/-- The observable effect of a successful `add_edge` on the node and edge
tables. -/
theorem add_edge_effect (sub : PyGraph) (e : PyEdge)
    (h1 : PyDict.contains sub.nodes e.srcId = true)
    (h2 : PyDict.contains sub.nodes e.tgtId = true)
    (h3 : PyDict.contains sub.edges e.edge_id = false) :
    ∃ sub1, sub.add_edge e = .ok sub1 ∧ sub1.nodes = sub.nodes ∧
      sub1.graph_id = sub.graph_id ∧
      ∀ k, PyDict.get sub1.edges k =
        if k = e.edge_id then some e else PyDict.get sub.edges k := by
  unfold PyGraph.add_edge
  rw [if_neg (by rw [h1]; exact fun h => h rfl)]
  rw [if_neg (by rw [h2]; exact fun h => h rfl)]
  rw [if_neg (by rw [h3]; exact Bool.false_ne_true)]
  refine ⟨_, rfl, rfl, rfl, ?_⟩
  intro k
  by_cases hk : k = e.edge_id
  · rw [if_pos hk, hk]
    exact PyDict.get_insert_self _ _ _
  · rw [if_neg hk]
    exact PyDict.get_insert_ne _ _ _ _ (fun hkk => hk hkk.symm)

/-- Behaviour of the edge-copy loop of `get_subgraph_by_nodes`: it succeeds,
keeps the node table, and its edge table extends the input by exactly the
re-instantiated copies of the scanned edges with both endpoint ids in the
requested set. -/
theorem addSubEdges_spec (S : List String) :
    ∀ (es : List PyEdge) (sub : PyGraph),
      (es.map PyEdge.edge_id).Nodup →
      (∀ k, k ∈ es.map PyEdge.edge_id → PyDict.get sub.edges k = none) →
      (∀ p ∈ sub.nodes, (p : String × PyNode).2.node_id = p.1) →
      (∀ e ∈ es, e.srcId ∈ S → PyDict.contains sub.nodes e.srcId = true) →
      (∀ e ∈ es, e.tgtId ∈ S → PyDict.contains sub.nodes e.tgtId = true) →
      ∃ sub'', addSubEdges S es sub = .ok sub'' ∧
        sub''.nodes = sub.nodes ∧
        (∀ k e', PyDict.get sub''.edges k = some e' →
          (PyDict.get sub.edges k = some e' ∨
           ∃ e ∈ es, e.edge_id = k ∧ e.srcId ∈ S ∧ e.tgtId ∈ S ∧
             ∃ ns nt, PyDict.get sub.nodes e.srcId = some ns ∧
               PyDict.get sub.nodes e.tgtId = some nt ∧
               e' = mkEdge e.edge_id ns nt e.direction e.attributes)) ∧
        (∀ k e0, PyDict.get sub.edges k = some e0 →
          ∃ e', PyDict.get sub''.edges k = some e') ∧
        (∀ e ∈ es, e.srcId ∈ S → e.tgtId ∈ S →
          ∃ e', PyDict.get sub''.edges e.edge_id = some e') := by
  intro es
  induction es with
  | nil =>
    intro sub _ _ _ _ _
    refine ⟨sub, rfl, rfl, fun k e' h => Or.inl h, fun k e0 h => ⟨e0, h⟩, ?_⟩
    intro e he
    simp at he
  | cons e0 rest ih =>
    intro sub hnd hgets hkeyed hsrc htgt
    have hnd' : (rest.map PyEdge.edge_id).Nodup := (List.nodup_cons.mp (by
      rw [List.map_cons] at hnd; exact hnd)).2
    have hid0 : e0.edge_id ∉ rest.map PyEdge.edge_id := (List.nodup_cons.mp (by
      rw [List.map_cons] at hnd; exact hnd)).1
    by_cases hin : e0.srcId ∈ S ∧ e0.tgtId ∈ S
    · have hcs : PyDict.contains sub.nodes e0.srcId = true :=
        hsrc e0 (List.mem_cons_self _ _) hin.1
      have hct : PyDict.contains sub.nodes e0.tgtId = true :=
        htgt e0 (List.mem_cons_self _ _) hin.2
      obtain ⟨ns, hns⟩ : ∃ ns, PyDict.get sub.nodes e0.srcId = some ns := by
        unfold PyDict.contains at hcs
        cases hx : PyDict.get sub.nodes e0.srcId with
        | none => rw [hx] at hcs; simp at hcs
        | some m => exact ⟨m, rfl⟩
      obtain ⟨nt, hnt⟩ : ∃ nt, PyDict.get sub.nodes e0.tgtId = some nt := by
        unfold PyDict.contains at hct
        cases hx : PyDict.get sub.nodes e0.tgtId with
        | none => rw [hx] at hct; simp at hct
        | some m => exact ⟨m, rfl⟩
      have hnsid : ns.node_id = e0.srcId := hkeyed (e0.srcId, ns) (PyDict.get_mem _ _ _ hns)
      have hntid : nt.node_id = e0.tgtId := hkeyed (e0.tgtId, nt) (PyDict.get_mem _ _ _ hnt)
      set newEdge : PyEdge := mkEdge e0.edge_id ns nt e0.direction e0.attributes with hnew
      have hnewsrc : newEdge.srcId = e0.srcId := by
        show ns.node_id = e0.srcId
        exact hnsid
      have hnewtgt : newEdge.tgtId = e0.tgtId := by
        show nt.node_id = e0.tgtId
        exact hntid
      have hnewid : newEdge.edge_id = e0.edge_id := rfl
      obtain ⟨sub1, hadd, hn1, hg1, hget1⟩ :=
        add_edge_effect sub newEdge (by rw [hnewsrc]; exact hcs) (by rw [hnewtgt]; exact hct)
          (by
            rw [hnewid]
            unfold PyDict.contains
            rw [hgets e0.edge_id (List.mem_map_of_mem PyEdge.edge_id (List.mem_cons_self _ _))]
            rfl)
      have hgets1 : ∀ k, k ∈ rest.map PyEdge.edge_id → PyDict.get sub1.edges k = none := by
        intro k hk
        rw [hget1 k]
        rw [if_neg (by
          intro hc
          rw [hnewid] at hc
          exact hid0 (hc ▸ hk))]
        exact hgets k (List.mem_cons_of_mem _ hk)
      obtain ⟨sub'', hrun, hnodes, hsound, hmono, hcomplete⟩ :=
        ih sub1 hnd' hgets1 (by rw [hn1]; exact hkeyed)
          (fun e he hes => by rw [hn1]; exact hsrc e (List.mem_cons_of_mem _ he) hes)
          (fun e he het => by rw [hn1]; exact htgt e (List.mem_cons_of_mem _ he) het)
      refine ⟨sub'', ?_, ?_, ?_, ?_, ?_⟩
      · show addSubEdges S (e0 :: rest) sub = .ok sub''
        unfold addSubEdges
        rw [if_pos hin]
        show (match sub.get_node e0.srcId, sub.get_node e0.tgtId with
          | some ns, some nt =>
            (match sub.add_edge (mkEdge e0.edge_id ns nt e0.direction e0.attributes) with
             | Except.error err => Except.error err
             | Except.ok s => addSubEdges S rest s)
          | _, _ => Except.error PyErr.attributeError) = Except.ok sub''
        have hgn1 : sub.get_node e0.srcId = some ns := hns
        have hgn2 : sub.get_node e0.tgtId = some nt := hnt
        rw [hgn1, hgn2]
        show (match sub.add_edge newEdge with
          | Except.error err => Except.error err
          | Except.ok s => addSubEdges S rest s) = Except.ok sub''
        rw [hadd]
        exact hrun
      · rw [hnodes, hn1]
      · intro k e' hk
        rcases hsound k e' hk with h1 | ⟨e, he, heid, hes, het, ns', nt', hns', hnt', he'⟩
        · rw [hget1 k, hnewid] at h1
          by_cases hke : k = e0.edge_id
          · rw [if_pos hke] at h1
            have he'new : e' = newEdge := ((Option.some.injEq _ _).mp h1).symm
            exact Or.inr ⟨e0, List.mem_cons_self _ _, hke.symm, hin.1, hin.2,
              ns, nt, hns, hnt, by rw [he'new]⟩
          · rw [if_neg hke] at h1
            exact Or.inl h1
        · rw [hn1] at hns' hnt'
          exact Or.inr ⟨e, List.mem_cons_of_mem _ he, heid, hes, het,
            ns', nt', hns', hnt', he'⟩
      · intro k ex hkx
        apply hmono k
        rw [hget1 k, hnewid]
        by_cases hke : k = e0.edge_id
        · exfalso
          rw [hke] at hkx
          rw [hgets e0.edge_id
            (List.mem_map_of_mem PyEdge.edge_id (List.mem_cons_self _ _))] at hkx
          cases hkx
        · rw [if_neg hke]
          exact hkx
      · intro e he hes het
        rcases List.mem_cons.mp he with h1 | h1
        · subst h1
          apply hmono e.edge_id newEdge
          rw [hget1 e.edge_id, hnewid]
          rw [if_pos rfl]
        · exact hcomplete e h1 hes het
    · obtain ⟨sub'', hrun, hnodes, hsound, hmono, hcomplete⟩ :=
        ih sub hnd' (fun k hk => hgets k (List.mem_cons_of_mem _ hk)) hkeyed
          (fun e he hes => hsrc e (List.mem_cons_of_mem _ he) hes)
          (fun e he het => htgt e (List.mem_cons_of_mem _ he) het)
      refine ⟨sub'', ?_, hnodes, ?_, hmono, ?_⟩
      · show addSubEdges S (e0 :: rest) sub = .ok sub''
        unfold addSubEdges
        rw [if_neg hin]
        exact hrun
      · intro k e' hk
        rcases hsound k e' hk with h1 | ⟨e, he, heid, hes, het, ns', nt', hns', hnt', he'⟩
        · exact Or.inl h1
        · exact Or.inr ⟨e, List.mem_cons_of_mem _ he, heid, hes, het,
            ns', nt', hns', hnt', he'⟩
      · intro e he hes het
        rcases List.mem_cons.mp he with h1 | h1
        · subst h1
          exact absurd ⟨hes, het⟩ hin
        · exact hcomplete e h1 hes het

theorem values_map_eq_keys {β : Type} (d : List (String × β)) (f : β → String)
    (h : ∀ p ∈ d, f (p : String × β).2 = p.1) :
    (PyDict.values d).map f = PyDict.keys d := by
  unfold PyDict.values PyDict.keys
  rw [List.map_map]
  exact List.map_congr_left (fun p hp => h p hp)

/-- **C5.**  `get_subgraph_by_nodes(S)` on a well-formed graph (and, for the
attribute clause, edges whose stored attribute values are `set_attribute`
fixpoints — which every edge constructed through `Edge.__init__` is)
returns a Graph whose node-id set is exactly `S` intersected with the
graph's node ids, whose edges are exactly the graph's edges with both
endpoint ids in `S`, each re-instantiated against the subgraph's own node
instances preserving id, direction and attribute values — and which is
fully isolated: mutating an attribute on any node object of the result
(through any alias) leaves the source graph entirely unchanged. -/
theorem get_subgraph_by_nodes_spec (g : PyGraph) (S : List String)
    (hwf : GraphWF g) (hS : S.Nodup)
    (hcanon : ∀ p ∈ g.edges, (PyDict.keys (p : String × PyEdge).2.attributes).Nodup ∧
      ∀ q ∈ p.2.attributes, canonVal (q : String × PyVal).2 = q.2) :
    ∃ sub, g.get_subgraph_by_nodes S = .ok sub ∧
      (∀ nid, PyDict.contains sub.nodes nid = true ↔
        (nid ∈ S ∧ PyDict.contains g.nodes nid = true)) ∧
      (∀ k e', PyDict.get sub.edges k = some e' →
        ∃ e, PyDict.get g.edges k = some e ∧ e.srcId ∈ S ∧ e.tgtId ∈ S ∧
          e'.edge_id = e.edge_id ∧ e'.direction = e.direction ∧
          e'.attributes = e.attributes ∧
          PyDict.get sub.nodes e.srcId = some e'.source_node ∧
          PyDict.get sub.nodes e.tgtId = some e'.target_node) ∧
      (∀ k e, PyDict.get g.edges k = some e → e.srcId ∈ S → e.tgtId ∈ S →
        ∃ e', PyDict.get sub.edges k = some e') ∧
      (∀ p ∈ sub.nodes, ∀ k v,
        heapSetAttr (p : String × PyNode).2.addr k v g = g) := by
  obtain ⟨sub', c', hrun1, hle, hedges1, hgid1, hnotin, hnone, hsome, hmem⟩ :=
    addNodeCopies_spec g hwf.nodesKeyed S ⟨g.graph_id ++ "_sub", [], [], []⟩
      (g.maxAddr + 1) hS (by intro p hp; simp at hp)
  have hsub'keyed : ∀ p ∈ sub'.nodes, (p : String × PyNode).2.node_id = p.1 := by
    intro p hp
    rcases hmem p hp with h1 | h1
    · simp at h1
    · exact h1.2
  have hsub'get : ∀ k, k ∈ (PyDict.values g.edges).map PyEdge.edge_id →
      PyDict.get sub'.edges k = none := by
    intro k _
    rw [hedges1]
    rfl
  have hidsnodup : ((PyDict.values g.edges).map PyEdge.edge_id).Nodup := by
    rw [values_map_eq_keys g.edges PyEdge.edge_id hwf.edgesKeyed]
    exact hwf.edgesNodup
  have hcontains' : ∀ nid, PyDict.contains sub'.nodes nid = true ↔
      (nid ∈ S ∧ PyDict.contains g.nodes nid = true) := by
    intro nid
    constructor
    · intro hc
      obtain ⟨m, hm⟩ : ∃ m, PyDict.get sub'.nodes nid = some m := by
        unfold PyDict.contains at hc
        cases hx : PyDict.get sub'.nodes nid with
        | none => rw [hx] at hc; simp at hc
        | some m => exact ⟨m, rfl⟩
      by_cases hns : nid ∈ S
      · refine ⟨hns, ?_⟩
        cases hgg : PyDict.get g.nodes nid with
        | none =>
          rw [hnone nid hns hgg] at hm
          simp [PyDict.get] at hm
        | some n =>
          unfold PyDict.contains
          rw [hgg]
          rfl
      · exfalso
        rw [hnotin nid hns] at hm
        simp [PyDict.get] at hm
    · rintro ⟨hns, hcg⟩
      obtain ⟨n, hgg⟩ : ∃ n, PyDict.get g.nodes nid = some n := by
        unfold PyDict.contains at hcg
        cases hx : PyDict.get g.nodes nid with
        | none => rw [hx] at hcg; simp at hcg
        | some n => exact ⟨n, rfl⟩
      obtain ⟨a, _, hget⟩ := hsome nid n hns hgg
      unfold PyDict.contains
      rw [hget]
      rfl
  have hsrcS : ∀ e ∈ PyDict.values g.edges, e.srcId ∈ S →
      PyDict.contains sub'.nodes e.srcId = true := by
    intro e he hes
    obtain ⟨p, hp, hpe⟩ := List.mem_map.mp he
    have hep := (hwf.endpointsPresent p hp).1
    rw [hpe] at hep
    exact (hcontains' e.srcId).mpr ⟨hes, hep⟩
  have htgtS : ∀ e ∈ PyDict.values g.edges, e.tgtId ∈ S →
      PyDict.contains sub'.nodes e.tgtId = true := by
    intro e he het
    obtain ⟨p, hp, hpe⟩ := List.mem_map.mp he
    have hep := (hwf.endpointsPresent p hp).2
    rw [hpe] at hep
    exact (hcontains' e.tgtId).mpr ⟨het, hep⟩
  obtain ⟨sub'', hrun2, hnodes2, hsound, hmono, hcomplete⟩ :=
    addSubEdges_spec S (PyDict.values g.edges) sub' hidsnodup hsub'get hsub'keyed hsrcS htgtS
  refine ⟨sub'', ?_, ?_, ?_, ?_, ?_⟩
  · show g.get_subgraph_by_nodes S = .ok sub''
    unfold PyGraph.get_subgraph_by_nodes
    rw [hrun1]
    exact hrun2
  · intro nid
    rw [hnodes2]
    exact hcontains' nid
  · intro k e' hk
    rcases hsound k e' hk with h1 | ⟨e, he, heid, hes, het, ns, nt, hns, hnt, he'⟩
    · rw [hedges1] at h1
      simp [PyDict.get] at h1
    · obtain ⟨p, hp, hpe⟩ := List.mem_map.mp he
      have hpid : p.2.edge_id = p.1 := hwf.edgesKeyed p hp
      have hkp : p.1 = k := by rw [← hpid, hpe, heid]
      have hgetg : PyDict.get g.edges k = some e := by
        rw [← hkp, ← hpe]
        exact PyDict.mem_get_of_nodup _ _ _ hwf.edgesNodup
          (show (p.1, p.2) ∈ g.edges from hp)
      obtain ⟨hcnd, hcfix⟩ := hcanon p hp
      rw [hpe] at hcnd hcfix
      obtain ⟨hmid, hmsrc, hmtgt, hmdir, hmattrs⟩ :=
        mkEdge_spec e.edge_id ns nt e.direction e.attributes hcnd hcfix
      refine ⟨e, hgetg, hes, het, ?_, ?_, ?_, ?_, ?_⟩
      · rw [he', hmid]
      · rw [he', hmdir]
      · rw [he', hmattrs]
      · rw [hnodes2, hns, he', hmsrc]
      · rw [hnodes2, hnt, he', hmtgt]
  · intro k e hk hes het
    have hmemv : e ∈ PyDict.values g.edges := PyDict.mem_of_get_eq_some _ _ _ hk
    have hkid : e.edge_id = k := by
      have := hwf.edgesKeyed (k, e) (PyDict.get_mem _ _ _ hk)
      exact this
    obtain ⟨e', he'⟩ := hcomplete e hmemv hes het
    exact ⟨e', by rw [← hkid]; exact he'⟩
  · intro p hp k v
    rw [hnodes2] at hp
    rcases hmem p hp with h1 | h1
    · simp at h1
    · apply heapSetAttr_fresh
      intro x hx hxa
      have hxle : x ≤ g.maxAddr := le_foldr_max _ _ hx
      have : g.maxAddr + 1 ≤ x := by
        rw [hxa]
        exact h1.1
      omega

/-- Witness for **C5**: the reachable two-node graph `gW3` with the request
`["A", "B"]`. -/
theorem get_subgraph_by_nodes_spec_witness :
    (GraphWF gW3 ∧ (["A", "B"] : List String).Nodup ∧
      (∀ p ∈ gW3.edges, (PyDict.keys (p : String × PyEdge).2.attributes).Nodup ∧
        ∀ q ∈ p.2.attributes, canonVal (q : String × PyVal).2 = q.2)) ∧
    (∃ sub, gW3.get_subgraph_by_nodes ["A", "B"] = .ok sub ∧
      (∀ nid, PyDict.contains sub.nodes nid = true ↔
        (nid ∈ (["A", "B"] : List String) ∧ PyDict.contains gW3.nodes nid = true)) ∧
      (∀ k e', PyDict.get sub.edges k = some e' →
        ∃ e, PyDict.get gW3.edges k = some e ∧ e.srcId ∈ (["A", "B"] : List String) ∧
          e.tgtId ∈ (["A", "B"] : List String) ∧
          e'.edge_id = e.edge_id ∧ e'.direction = e.direction ∧
          e'.attributes = e.attributes ∧
          PyDict.get sub.nodes e.srcId = some e'.source_node ∧
          PyDict.get sub.nodes e.tgtId = some e'.target_node) ∧
      (∀ k e, PyDict.get gW3.edges k = some e → e.srcId ∈ (["A", "B"] : List String) →
        e.tgtId ∈ (["A", "B"] : List String) →
        ∃ e', PyDict.get sub.edges k = some e') ∧
      (∀ p ∈ sub.nodes, ∀ k v,
        heapSetAttr (p : String × PyNode).2.addr k v gW3 = gW3)) :=
  ⟨⟨by decide, by decide, by decide⟩,
   get_subgraph_by_nodes_spec gW3 ["A", "B"] (by decide) (by decide) (by decide)⟩

end GV
